import Mathlib

/-
Verification of the crypto market-making engine core against its
specification.  The C++ source is shallowly embedded: prices, quantities
and PnL are modelled as exact rationals (the C++ uses `double`; all the
scenario arithmetic here is exact decimal arithmetic where `double` and ℚ
agree on the comparisons involved), machine integers as ℕ with explicit
`% 2^64` where wraparound matters, and fallible parsing as `Option`.
Wall-clock timestamps are threaded as explicit rational parameters.
-/

namespace CryptoBot

/-! ## Position & PnL Tracker — `OrderManager::updatePositionAndPnL`
(src/order_manager.cpp, lines 365-402).

State fields mirror `current_position_`, `previous_position_`,
`avg_buy_price_`, `cumulative_pnl_` (all initialised to 0.0 in
order_manager.h). -/

structure PnlState where
  net : ℚ
  prevNet : ℚ
  avgBuyPrice : ℚ
  cumulativePnl : ℚ
  deriving DecidableEq, Repr

def PnlState.init : PnlState := ⟨0, 0, 0, 0⟩

structure Fill where
  side : String
  qty : ℚ
  price : ℚ
  deriving DecidableEq, Repr

/-- Shallow embedding of `OrderManager::updatePositionAndPnL`.  The fill's
`filled_quantity` is `f.qty` and its `price` is `f.price`; the branch
structure (`SELL && previous_position_ > 0` / `else if BUY`, and inside the
BUY branch the test `current_position_ > 0`) is copied from the source. -/
def updatePositionAndPnL (s : PnlState) (f : Fill) : PnlState :=
  let quantitySigned : ℚ := if f.side = "BUY" then f.qty else -f.qty
  let tradeValue : ℚ := f.qty * f.price
  let newNet : ℚ := s.net + quantitySigned
  let realizedPnl : ℚ :=
    if f.side = "SELL" ∧ s.prevNet > 0 then (f.price - s.avgBuyPrice) * f.qty
    else 0
  let newAvg : ℚ :=
    if f.side = "SELL" ∧ s.prevNet > 0 then s.avgBuyPrice
    else if f.side = "BUY" then
      (if newNet > 0 then (s.avgBuyPrice * |s.prevNet| + tradeValue) / |newNet|
       else f.price)
    else s.avgBuyPrice
  { net := newNet
    prevNet := newNet
    avgBuyPrice := newAvg
    cumulativePnl := s.cumulativePnl + realizedPnl }

/-- Processing a list of fills in arrival order. -/
def processFills (s : PnlState) (fs : List Fill) : PnlState :=
  fs.foldl updatePositionAndPnL s

/-! ## Risk Manager — src/risk_manager.cpp / include/risk_manager.h

Event messages built with `std::to_string(...)` suffixes are modelled by
their static text (no claim inspects the numeric suffix); event timestamps
are omitted.  `canPlaceOrder` and `checkOperationalLimits` read the wall
clock inside; the model passes the call time `now` explicitly, with order
timestamps as rationals. -/

inductive RiskEventType where
  | positionLimitExceeded
  | dailyLossLimitExceeded
  | drawdownLimitExceeded
  | orderRateLimitExceeded
  | circuitBreakerTriggered
  | priceDeviationExtreme
  | systemHealthCritical
  | positionWarning
  | pnlWarning
  deriving DecidableEq, Repr

inductive RiskLevel where
  | info
  | warning
  | critical
  | emergency
  deriving DecidableEq, Repr

structure RiskEvent where
  type : RiskEventType
  level : RiskLevel
  message : String
  symbol : String
  value : ℚ
  limit : ℚ
  deriving DecidableEq, Repr

def MAX_RISK_EVENTS : ℕ := 1000

/-- Embedding of `RiskManager::recordRiskEvent`: append, then erase from the
front whatever exceeds `MAX_RISK_EVENTS`. -/
def recordRiskEvent (events : List RiskEvent) (e : RiskEvent) : List RiskEvent :=
  let es := events ++ [e]
  if es.length > MAX_RISK_EVENTS then es.drop (es.length - MAX_RISK_EVENTS) else es

/-- Association-list update mirroring `std::map::operator[] =` (unique keys;
ordering of entries is irrelevant to `List.lookup`). -/
def mapInsert (m : List (String × ℚ)) (k : String) (v : ℚ) : List (String × ℚ) :=
  if m.any (fun e => e.1 == k) then m.map (fun e => if e.1 == k then (k, v) else e)
  else m ++ [(k, v)]

/-- State of `RiskManager`, field defaults as in risk_manager.h. -/
structure RiskState where
  positions : List (String × ℚ)
  positionLimits : List (String × ℚ)
  currentPnl : ℚ
  dailyPnl : ℚ
  peakPnl : ℚ
  maxDailyLossLimit : ℚ
  maxDrawdownLimit : ℚ
  recentOrders : List ℚ
  maxOrdersPerSecond : ℕ
  circuitBreakerActive : Bool
  circuitBreakerReason : String
  riskEvents : List RiskEvent
  deriving Repr

def RiskState.init : RiskState :=
  { positions := []
    positionLimits := []
    currentPnl := 0
    dailyPnl := 0
    peakPnl := 0
    maxDailyLossLimit := -100
    maxDrawdownLimit := -50
    recentOrders := []
    maxOrdersPerSecond := 10
    circuitBreakerActive := false
    circuitBreakerReason := ""
    riskEvents := [] }

/-- Embedding of `RiskManager::setPositionLimit`. -/
def setPositionLimit (s : RiskState) (symbol : String) (limit : ℚ) : RiskState :=
  { s with positionLimits := mapInsert s.positionLimits symbol limit }

/-- Embedding of `RiskManager::setDailyLossLimit` (stores `-|limit|`). -/
def setDailyLossLimit (s : RiskState) (limit : ℚ) : RiskState :=
  { s with maxDailyLossLimit := -|limit| }

/-- Embedding of `RiskManager::setDrawdownLimit` (stores `-|limit|`). -/
def setDrawdownLimit (s : RiskState) (limit : ℚ) : RiskState :=
  { s with maxDrawdownLimit := -|limit| }

/-- Embedding of `RiskManager::triggerCircuitBreaker`. -/
def triggerCircuitBreaker (s : RiskState) (reason : String) : RiskState :=
  { s with
    circuitBreakerActive := true
    circuitBreakerReason := reason
    riskEvents := recordRiskEvent s.riskEvents
      (⟨.circuitBreakerTriggered, .emergency, "Circuit breaker triggered: " ++ reason, "", 0, 0⟩ : RiskEvent) }

/-- Embedding of `RiskManager::checkPositionLimits` (risk_manager.cpp,
lines 499-517): no configured limit means the check always passes. -/
def checkPositionLimits (s : RiskState) (symbol side : String) (quantity : ℚ) : Bool :=
  match s.positionLimits.lookup symbol with
  | none => true
  | some limit =>
    let currentPosition := (s.positions.lookup symbol).getD 0
    let positionChange := if side = "BUY" then quantity else -quantity
    decide (|currentPosition + positionChange| ≤ limit)

/-- Embedding of `RiskManager::checkFinancialLimits`. -/
def checkFinancialLimits (s : RiskState) : Bool :=
  if s.dailyPnl ≤ s.maxDailyLossLimit then false
  else if s.peakPnl - s.currentPnl ≥ |s.maxDrawdownLimit| then false
  else true

/-- Embedding of `RiskManager::checkOperationalLimits`: strictly fewer than
`max_orders_per_second_` timestamps within the last second. -/
def checkOperationalLimits (s : RiskState) (now : ℚ) : Bool :=
  (s.recentOrders.countP (fun t => decide (t > now - 1))) < s.maxOrdersPerSecond

/-- Embedding of `RiskManager::canPlaceOrder` (risk_manager.cpp, lines
54-88).  Returns (allowed, rejection_reason, post-call state); the state
changes only by the risk events the call records. -/
def canPlaceOrder (s : RiskState) (symbol side : String) (_price quantity : ℚ)
    (now : ℚ) : Bool × String × RiskState :=
  if s.circuitBreakerActive then
    (false, "Circuit breaker active: " ++ s.circuitBreakerReason, s)
  else if ¬ checkPositionLimits s symbol side quantity then
    let ev : RiskEvent :=
      ⟨.positionLimitExceeded, .critical, "Order rejected: Position limit exceeded",
        symbol, quantity, (s.positionLimits.lookup symbol).getD 0⟩
    (false, "Position limit exceeded for " ++ symbol,
     { s with riskEvents := recordRiskEvent s.riskEvents ev })
  else if ¬ checkFinancialLimits s then
    (false, "Financial risk limits exceeded", s)
  else if ¬ checkOperationalLimits s now then
    let ev : RiskEvent :=
      ⟨.orderRateLimitExceeded, .warning, "Order rejected: Rate limit exceeded", "", 0, 0⟩
    (false, "Order rate limit exceeded",
     { s with riskEvents := recordRiskEvent s.riskEvents ev })
  else (true, "", s)

/-- Embedding of `RiskManager::updatePnL` (risk_manager.cpp, lines 112-143):
accumulate, update the peak, then the daily-loss check, the drawdown check
and the 70 % warning, in source order. -/
def updatePnL (s : RiskState) (pnlChange : ℚ) : RiskState :=
  let current := s.currentPnl + pnlChange
  let daily := s.dailyPnl + pnlChange
  let peak := if current > s.peakPnl then current else s.peakPnl
  let s1 := { s with currentPnl := current, dailyPnl := daily, peakPnl := peak }
  let s2 :=
    if daily ≤ s.maxDailyLossLimit then
      let ev : RiskEvent :=
        ⟨.dailyLossLimitExceeded, .emergency, "Daily loss limit exceeded: $", "", 0, 0⟩
      triggerCircuitBreaker
        { s1 with riskEvents := recordRiskEvent s1.riskEvents ev }
        "Daily loss limit exceeded"
    else s1
  let s3 :=
    if peak - current ≥ |s.maxDrawdownLimit| then
      let ev : RiskEvent :=
        ⟨.drawdownLimitExceeded, .emergency, "Drawdown limit exceeded: $", "", 0, 0⟩
      triggerCircuitBreaker
        { s2 with riskEvents := recordRiskEvent s2.riskEvents ev }
        "Drawdown limit exceeded"
    else s2
  if daily ≤ s.maxDailyLossLimit * (7/10) then
    let ev : RiskEvent := ⟨.pnlWarning, .warning, "Approaching daily loss limit: $", "", 0, 0⟩
    { s3 with riskEvents := recordRiskEvent s3.riskEvents ev }
  else s3

/-- Embedding of `RiskManager::updatePosition` (risk_manager.cpp, lines
90-110); `price` is unused in the source as well. -/
def updatePosition (s : RiskState) (symbol : String) (quantity : ℚ) (_price : ℚ)
    (side : String) : RiskState :=
  let positionChange := if side = "BUY" then quantity else -quantity
  let newPos := (s.positions.lookup symbol).getD 0 + positionChange
  let s1 := { s with positions := mapInsert s.positions symbol newPos }
  match s.positionLimits.lookup symbol with
  | some limit =>
    if |newPos| / limit > (4/5 : ℚ) then
      let ev : RiskEvent :=
        ⟨.positionWarning, .warning, "Position utilization high: ", symbol, |newPos|, limit⟩
      { s1 with riskEvents := recordRiskEvent s1.riskEvents ev }
    else s1
  | none => s1

/-! ## Order Book — src/order_book.cpp / include/order_book.h

`bids_ : std::map<double,double,std::greater<double>>` and
`asks_ : std::map<double,double>` are modelled as association lists sorted
by key, descending for bids and ascending for asks, with unique keys —
exactly the iteration order the C++ maps expose.  `std::stod` of a
malformed decimal string throws; a parsed field is `Parsed.ok v` or
`Parsed.bad` (the throw). -/

inductive Parsed where
  | ok (v : ℚ)
  | bad
  deriving DecidableEq, Repr

abbrev BookSide := List (ℚ × ℚ)

/-- Key update in a descending-sorted map (bids): overwrite an existing key
or insert at the sorted position, as `bids_[price] = quantity` does. -/
def insertDesc (p q : ℚ) : BookSide → BookSide
  | [] => [(p, q)]
  | (p', q') :: rest =>
    if p > p' then (p, q) :: (p', q') :: rest
    else if p = p' then (p, q) :: rest
    else (p', q') :: insertDesc p q rest

/-- Key update in an ascending-sorted map (asks). -/
def insertAsc (p q : ℚ) : BookSide → BookSide
  | [] => [(p, q)]
  | (p', q') :: rest =>
    if p < p' then (p, q) :: (p', q') :: rest
    else if p = p' then (p, q) :: rest
    else (p', q') :: insertAsc p q rest

/-- `map::erase(price)`. -/
def eraseKey (p : ℚ) (side : BookSide) : BookSide :=
  side.filter (fun e => e.1 ≠ p)

structure Book where
  symbol : String
  bids : BookSide
  asks : BookSide
  updateCount : ℕ
  deriving DecidableEq, Repr

def Book.empty (symbol : String) : Book := ⟨symbol, [], [], 0⟩

/-- One element of a Coinbase L2 `updates` array: either the three fields
are present (`hasFields`) or the entry is skipped; present numeric fields
carry their `std::stod` outcome. -/
structure WSEntry where
  hasFields : Bool
  price : Parsed
  qty : Parsed
  side : String
  deriving DecidableEq, Repr

/-- A parsed JSON market-data message as `updateFromWebSocket` inspects it. -/
structure WSMessage where
  hasType : Bool
  msgType : String
  hasProductId : Bool
  productId : String
  hasUpdates : Bool
  updates : List WSEntry
  deriving DecidableEq, Repr

/-- Entry loop of the `snapshot` branch of `OrderBook::updateFromWebSocket`:
only strictly positive quantities stored; a `std::stod` throw propagates,
keeping the mutations already applied (`false` = aborted). -/
def applySnapshotEntries : List WSEntry → Book → Book × Bool
  | [], b => (b, true)
  | e :: rest, b =>
    if e.hasFields then
      match e.price, e.qty with
      | .ok p, .ok q =>
        let b' :=
          if q > 0 then
            if e.side = "bid" then { b with bids := insertDesc p q b.bids }
            else if e.side = "offer" then { b with asks := insertAsc p q b.asks }
            else b
          else b
        applySnapshotEntries rest b'
      | _, _ => (b, false)
    else applySnapshotEntries rest b

/-- Entry loop of the `update` branch of `OrderBook::updateFromWebSocket`:
quantity 0 erases the level, anything else overwrites; a `std::stod` throw
propagates, keeping the mutations already applied. -/
def applyUpdateEntries : List WSEntry → Book → Book × Bool
  | [], b => (b, true)
  | e :: rest, b =>
    if e.hasFields then
      match e.price, e.qty with
      | .ok p, .ok q =>
        let b' :=
          if e.side = "bid" then
            if q = 0 then { b with bids := eraseKey p b.bids }
            else { b with bids := insertDesc p q b.bids }
          else if e.side = "offer" then
            if q = 0 then { b with asks := eraseKey p b.asks }
            else { b with asks := insertAsc p q b.asks }
          else b
        applyUpdateEntries rest b'
      | _, _ => (b, false)
    else applyUpdateEntries rest b

/-- Embedding of `OrderBook::updateFromWebSocket` (order_book.cpp, lines
8-87).  The Bool is the C++ return value; `false` from a thrown exception
leaves the partial mutations in place and skips the `update_count_`
increment, exactly as the source's catch-all does.  Note that this path
never calls `cleanupLevels`. -/
def updateFromWebSocket (msg : WSMessage) (b : Book) : Book × Bool :=
  if ¬ (msg.hasType ∧ msg.hasProductId) then (b, false)
  else if msg.productId ≠ b.symbol then (b, false)
  else if msg.msgType = "snapshot" then
    let b0 := { b with bids := [], asks := [] }
    let r := if msg.hasUpdates then applySnapshotEntries msg.updates b0 else (b0, true)
    if r.2 then ({ r.1 with updateCount := r.1.updateCount + 1 }, true) else (r.1, false)
  else if msg.msgType = "update" then
    let r := if msg.hasUpdates then applyUpdateEntries msg.updates b else (b, true)
    if r.2 then ({ r.1 with updateCount := r.1.updateCount + 1 }, true) else (r.1, false)
  else (b, false)

/-- Embedding of `OrderBook::parseDepthLevel` (order_book.cpp, lines
302-321): needs at least two fields, both parsable, price positive and
quantity non-negative; the throw is caught locally, so failure only drops
the entry. -/
def parseDepthLevel (level : List Parsed) : Option (ℚ × ℚ) :=
  match level with
  | p :: q :: _ =>
    match p, q with
    | .ok pv, .ok qv => if pv ≤ 0 ∨ qv < 0 then none else some (pv, qv)
    | _, _ => none
  | _ => none

def MAX_LEVELS : ℕ := 100

/-- Embedding of `OrderBook::cleanupLevels`: keep the first `MAX_LEVELS` of
each side in iteration order (top prices). -/
def cleanupLevels (b : Book) : Book :=
  { b with bids := b.bids.take MAX_LEVELS, asks := b.asks.take MAX_LEVELS }

/-- Embedding of `OrderBook::updateBids`: per entry, unparsable levels are
dropped and the rest applied; `cleanupLevels` afterwards. -/
def updateBids (levels : List (List Parsed)) (b : Book) : Book :=
  cleanupLevels <| levels.foldl
    (fun bk lv =>
      match parseDepthLevel lv with
      | some (p, q) =>
        if q = 0 then { bk with bids := eraseKey p bk.bids }
        else { bk with bids := insertDesc p q bk.bids }
      | none => bk)
    b

/-- Embedding of `OrderBook::updateAsks`. -/
def updateAsks (levels : List (List Parsed)) (b : Book) : Book :=
  cleanupLevels <| levels.foldl
    (fun bk lv =>
      match parseDepthLevel lv with
      | some (p, q) =>
        if q = 0 then { bk with asks := eraseKey p bk.asks }
        else { bk with asks := insertAsc p q bk.asks }
      | none => bk)
    b

structure OrderBookSnapshot where
  symbol : String
  bids : BookSide
  asks : BookSide
  bestBidPrice : ℚ
  bestAskPrice : ℚ
  bestBidQuantity : ℚ
  bestAskQuantity : ℚ
  spread : ℚ
  spreadBps : ℚ
  isValid : Bool
  deriving DecidableEq, Repr

/-- Embedding of `OrderBook::getSnapshot` (order_book.cpp, lines 133-176):
best prices are the first entries in map iteration order, spread fields are
computed only when both sides are non-empty (defaults 0.0), the top 10
levels are copied, and `is_valid` iff both sides non-empty. -/
def getSnapshot (b : Book) : OrderBookSnapshot :=
  let bb := match b.bids.head? with | some e => e.1 | none => 0
  let bbq := match b.bids.head? with | some e => e.2 | none => 0
  let ba := match b.asks.head? with | some e => e.1 | none => 0
  let baq := match b.asks.head? with | some e => e.2 | none => 0
  let bothSides : Bool := (!b.bids.isEmpty) && (!b.asks.isEmpty)
  let spread := if bothSides then ba - bb else 0
  let mid := (bb + ba) / 2
  let spreadBps := if bothSides then (if mid > 0 then spread / mid * 10000 else 0) else 0
  { symbol := b.symbol
    bids := b.bids.take 10
    asks := b.asks.take 10
    bestBidPrice := bb
    bestAskPrice := ba
    bestBidQuantity := bbq
    bestAskQuantity := baq
    spread := spread
    spreadBps := spreadBps
    isValid := bothSides }

/-! ## Paper-mode fill simulator — `HFTEngine::send_order`
(src/hft_engine.cpp, lines 566-610).

The RNG draw is passed in explicitly (uniform on [0,1)); the inventory
neutral band 0.01 and all factors are the source's literals. -/

structure SimOrder where
  side : Char
  price : ℚ
  quantity : ℚ
  deriving DecidableEq, Repr

structure SimFill where
  price : ℚ
  quantity : ℚ
  deriving DecidableEq, Repr

/-- Fill probability computed by `send_order`: base 0.3, `*= 1.8` for
inventory-rebalancing orders, `*= 0.4` for inventory-building orders,
capped by `std::min(p, 0.65)`. -/
def fillProbability (side : Char) (currentPos : ℚ) : ℚ :=
  let p1 : ℚ := 3/10
  let p2 :=
    if (side = 'S' ∧ currentPos > 1/100) ∨ (side = 'B' ∧ currentPos < -(1/100)) then
      p1 * (9/5)
    else p1
  let p3 :=
    if (side = 'B' ∧ currentPos > 1/100) ∨ (side = 'S' ∧ currentPos < -(1/100)) then
      p2 * (2/5)
    else p2
  min p3 (13/20)

/-- Fill decision of `send_order`: when the uniform draw is below the
probability, a fill for the full quantity at the order's price is produced
(status 'F', pushed to the inbound queue); otherwise none. -/
def simulateFill (o : SimOrder) (currentPos draw : ℚ) : Option SimFill :=
  if draw < fillProbability o.side currentPos then some ⟨o.price, o.quantity⟩ else none

/-- Spec-side formula for claim C4, written from the spec's words: the base
0.30 multiplied by 1.8 when the order opposes the inventory beyond the
neutral band and by 0.4 when it compounds it, then clamped to at most 0.65.
Compared against `fillProbability` (the code) in the C4 theorem. -/
def fillProbabilitySpec (side : Char) (currentPos : ℚ) : ℚ :=
  let rebalancing := (side = 'S' ∧ currentPos > 1/100) ∨ (side = 'B' ∧ currentPos < -(1/100))
  let compounding := (side = 'B' ∧ currentPos > 1/100) ∨ (side = 'S' ∧ currentPos < -(1/100))
  min ((3/10) * (if rebalancing then 9/5 else 1) * (if compounding then 2/5 else 1)) (13/20)

/-! ## Latency metrics — `HFTEngine::update_latency_metrics`
(src/hft_engine.cpp, lines 667-679).

`uint64_t` is ℕ below 2^64; the sequentialised CAS loops reduce to min/max,
and the average uses C++ unsigned (truncating, wrapping) arithmetic. -/

def UINT64_MAX : ℕ := 2 ^ 64 - 1

structure LatencyMetrics where
  avgNs : ℕ
  minNs : ℕ
  maxNs : ℕ
  deriving DecidableEq, Repr

/-- Initial values from `AtomicHFTMetrics`: avg 0, min `UINT64_MAX`, max 0. -/
def LatencyMetrics.init : LatencyMetrics := ⟨0, UINT64_MAX, 0⟩

/-- Embedding of `update_latency_metrics` for one sample. -/
def updateLatencyMetrics (m : LatencyMetrics) (sample : ℕ) : LatencyMetrics :=
  { minNs := min m.minNs sample
    maxNs := max m.maxNs sample
    avgNs := ((m.avgNs + sample) % 2 ^ 64) / 2 }

def processLatencySamples (m : LatencyMetrics) (samples : List ℕ) : LatencyMetrics :=
  samples.foldl updateLatencyMetrics m

/-! ## Lock-free SPSC ring — `LockFreeQueue<T, Size>`
(include/hft_engine.h, lines 24-60), in its sequential use.

`buffer_` is a `std::array<T, Size>` modelled as a list of length `size`;
`head_`/`tail_` always stay below `size` (they are stored reduced
`% Size`). -/

structure LockFreeQueue (T : Type) (size : ℕ) where
  head : ℕ
  tail : ℕ
  buffer : List T
  deriving DecidableEq, Repr

def LockFreeQueue.empty (T : Type) [Inhabited T] (size : ℕ) : LockFreeQueue T size :=
  ⟨0, 0, List.replicate size default⟩

/-- Embedding of `LockFreeQueue::push`: fails (queue unchanged) exactly when
the incremented tail would collide with the head. -/
def LockFreeQueue.push {T : Type} {size : ℕ} (q : LockFreeQueue T size) (x : T) :
    LockFreeQueue T size × Bool :=
  let nextTail := (q.tail + 1) % size
  if nextTail ≠ q.head then ({ q with buffer := q.buffer.set q.tail x, tail := nextTail }, true)
  else (q, false)

/-- Embedding of `LockFreeQueue::pop`: none exactly when head = tail. -/
def LockFreeQueue.pop {T : Type} {size : ℕ} [Inhabited T] (q : LockFreeQueue T size) :
    LockFreeQueue T size × Option T :=
  if q.head = q.tail then (q, none)
  else ({ q with head := (q.head + 1) % size }, some (q.buffer.getD q.head default))

/-- Number of enqueued items (what `size()` returns for in-range cursors). -/
def LockFreeQueue.count {T : Type} {size : ℕ} (q : LockFreeQueue T size) : ℕ :=
  (size + q.tail - q.head) % size

/-- Abstraction to the queue's logical content, oldest first. -/
def LockFreeQueue.contents {T : Type} {size : ℕ} [Inhabited T] (q : LockFreeQueue T size) :
    List T :=
  (List.range q.count).map (fun i => q.buffer.getD ((q.head + i) % size) default)

/-- Well-formedness: cursors in range, buffer of the declared size. -/
def LockFreeQueue.WF {T : Type} {size : ℕ} (q : LockFreeQueue T size) : Prop :=
  q.head < size ∧ q.tail < size ∧ q.buffer.length = size

/-- n sequential pushes of 0, 1, …, n−1 into an initially empty queue,
conjoined with whether every push succeeded. -/
def pushSeq (size : ℕ) : ℕ → LockFreeQueue ℕ size × Bool
  | 0 => (LockFreeQueue.empty ℕ size, true)
  | n + 1 =>
    (((pushSeq size n).1.push n).1, (pushSeq size n).2 && ((pushSeq size n).1.push n).2)

/-! ### Scenario fixtures built through the embedded operations. -/

/-- S3 fixture: position limit 0.1 for ETH-USD, then a BUY fill of 0.095
booked through `updatePosition`. -/
def s3Risk : RiskState :=
  updatePosition (setPositionLimit RiskState.init "ETH-USD" (1/10)) "ETH-USD" (19/200) 100 "BUY"

/-- S4 fixture: daily loss limit −5.0, then `updatePnL(−5.01)`. -/
def s4Risk : RiskState :=
  updatePnL (setDailyLossLimit RiskState.init 5) (-(501/100))

/-- S1 fixture message: Coinbase snapshot with bids (100.00, 1), (99.99, 2)
and asks (100.02, 1), (100.03, 3). -/
def s1Msg : WSMessage :=
  ⟨true, "snapshot", true, "ETH-USD", true,
   [⟨true, .ok 100, .ok 1, "bid"⟩,
    ⟨true, .ok (9999/100), .ok 2, "bid"⟩,
    ⟨true, .ok (10002/100), .ok 1, "offer"⟩,
    ⟨true, .ok (10003/100), .ok 3, "offer"⟩]⟩

/-- S1 fixture book: the S1 snapshot applied to an empty ETH-USD book. -/
def s1Book : Book :=
  (updateFromWebSocket s1Msg (Book.empty "ETH-USD")).1

/-- No stored level has quantity 0 (order-book invariant of claim C6). -/
def noZeroQty (side : BookSide) : Prop :=
  ∀ e ∈ side, e.2 ≠ 0

/-- Entries of a snapshot message with `n` distinct bid levels at prices
1, 2, …, n, quantity 1 each. -/
def c6Entries (n : ℕ) : List WSEntry :=
  (List.range n).map (fun i => ⟨true, .ok ((i + 1 : ℕ) : ℚ), .ok 1, "bid"⟩)

/-- The bid side those entries produce: prices n, n−1, …, 1 descending. -/
def genBids : ℕ → BookSide
  | 0 => []
  | n + 1 => (((n + 1 : ℕ) : ℚ), 1) :: genBids n

/-- A well-formed snapshot message carrying 101 bid levels. -/
def c6Msg : WSMessage :=
  ⟨true, "snapshot", true, "ETH-USD", true, c6Entries 101⟩

/-- An update message whose second entry has an unparsable quantity; the
first and third entries are well-formed bids. -/
def c7Msg : WSMessage :=
  ⟨true, "update", true, "ETH-USD", true,
   [⟨true, .ok 10, .ok 5, "bid"⟩,
    ⟨true, .ok 20, .bad, "bid"⟩,
    ⟨true, .ok 30, .ok 7, "bid"⟩]⟩

/-! ## Claim C1 — Position & PnL Tracker.

The scenario arithmetic and the SELL rule hold, but the claimed BUY rule
"weighted average when `new_net ≠ 0`, else the fill price" does not match
the source: `updatePositionAndPnL` tests `current_position_ > 0`, so a BUY
that leaves the position short (`new_net < 0`, hence `≠ 0`) sets
`avg_cost = price` instead of the weighted average. -/

/-- Claim C1, counterexample.  After BUY 1 @ 100 then SELL 3 @ 100 the state
is net = −2, avg_cost = 100.  A further BUY 1 @ 50 has new_net = −1 ≠ 0, so
the claim demands avg_cost = (100·2 + 1·50)/1 = 250, but the code yields
avg_cost = 50 (the fill price). -/
theorem claim_C1_counterexample :
    (processFills PnlState.init [⟨"BUY", 1, 100⟩, ⟨"SELL", 3, 100⟩]).net + 1 ≠ 0
    ∧ ((processFills PnlState.init [⟨"BUY", 1, 100⟩, ⟨"SELL", 3, 100⟩]).avgBuyPrice *
          |(processFills PnlState.init [⟨"BUY", 1, 100⟩, ⟨"SELL", 3, 100⟩]).prevNet|
          + 1 * 50) /
        |(processFills PnlState.init [⟨"BUY", 1, 100⟩, ⟨"SELL", 3, 100⟩]).net + 1| = 250
    ∧ (processFills PnlState.init
        [⟨"BUY", 1, 100⟩, ⟨"SELL", 3, 100⟩, ⟨"BUY", 1, 50⟩]).avgBuyPrice = 50 := by
  refine ⟨?_, ?_, ?_⟩ <;>
    · simp [processFills, updatePositionAndPnL, PnlState.init]
      norm_num

/-- Claim C1, amended: the fill sequence BUY 1 @ 100, BUY 1 @ 102,
SELL 1 @ 105 yields avg_cost = 101 after the two buys and then
realised_pnl = 4 with net = 1; every BUY fill adds 0 to realised PnL and
sets avg_cost to (avg_cost·|prev_net| + qty·price)/|new_net| when
new_net > 0 (else to the fill price); every SELL fill with prev_net > 0
adds (price − avg_cost)·qty to realised PnL and leaves avg_cost unchanged. -/
theorem claim_C1 :
    ((processFills PnlState.init [⟨"BUY", 1, 100⟩, ⟨"BUY", 1, 102⟩]).avgBuyPrice = 101
      ∧ processFills PnlState.init [⟨"BUY", 1, 100⟩, ⟨"BUY", 1, 102⟩, ⟨"SELL", 1, 105⟩]
          = ⟨1, 1, 101, 4⟩)
    ∧ (∀ (s : PnlState) (f : Fill), f.side = "BUY" →
        (updatePositionAndPnL s f).cumulativePnl = s.cumulativePnl
        ∧ (updatePositionAndPnL s f).net = s.net + f.qty
        ∧ (updatePositionAndPnL s f).avgBuyPrice =
            (if s.net + f.qty > 0 then
              (s.avgBuyPrice * |s.prevNet| + f.qty * f.price) / |s.net + f.qty|
             else f.price))
    ∧ (∀ (s : PnlState) (f : Fill), f.side = "SELL" → s.prevNet > 0 →
        (updatePositionAndPnL s f).cumulativePnl
          = s.cumulativePnl + (f.price - s.avgBuyPrice) * f.qty
        ∧ (updatePositionAndPnL s f).net = s.net - f.qty
        ∧ (updatePositionAndPnL s f).avgBuyPrice = s.avgBuyPrice) := by
  refine ⟨⟨?_, ?_⟩, ?_, ?_⟩
  · simp [processFills, updatePositionAndPnL, PnlState.init]
    norm_num
  · simp [processFills, updatePositionAndPnL, PnlState.init]
    norm_num
  · intro s f hside
    simp [updatePositionAndPnL, hside, mul_comm]
  · intro s f hside hprev
    simp [updatePositionAndPnL, hside, hprev, sub_eq_add_neg]

/-- Claim C1, witness: the amended SELL rule applied at net = 2,
avg_cost = 101, with SELL 1 @ 105. -/
theorem claim_C1_witness :
    (updatePositionAndPnL ⟨2, 2, 101, 0⟩ ⟨"SELL", 1, 105⟩).cumulativePnl
        = 0 + (105 - 101) * 1
    ∧ (updatePositionAndPnL ⟨2, 2, 101, 0⟩ ⟨"SELL", 1, 105⟩).net = 2 - 1
    ∧ (updatePositionAndPnL ⟨2, 2, 101, 0⟩ ⟨"SELL", 1, 105⟩).avgBuyPrice = 101 :=
  claim_C1.2.2 ⟨2, 2, 101, 0⟩ ⟨"SELL", 1, 105⟩ rfl (by norm_num)

/-! ## Claim C2 — circuit breaker on daily loss. -/

/-- Evaluation of the S4 fixture: `updatePnL(−5.01)` under a −5.0 daily
loss limit books the loss, records the EMERGENCY events and latches the
breaker with reason "Daily loss limit exceeded". -/
theorem s4Risk_eval :
    s4Risk = { RiskState.init with
      currentPnl := -(501/100)
      dailyPnl := -(501/100)
      maxDailyLossLimit := -5
      circuitBreakerActive := true
      circuitBreakerReason := "Daily loss limit exceeded"
      riskEvents :=
        [⟨.dailyLossLimitExceeded, .emergency, "Daily loss limit exceeded: $", "", 0, 0⟩,
         ⟨.circuitBreakerTriggered, .emergency,
          "Circuit breaker triggered: Daily loss limit exceeded", "", 0, 0⟩,
         ⟨.pnlWarning, .warning, "Approaching daily loss limit: $", "", 0, 0⟩] } := by
  have habs5 : |(5 : ℚ)| = 5 := by norm_num
  have habs50 : |(-50 : ℚ)| = 50 := by norm_num
  simp only [s4Risk, updatePnL, setDailyLossLimit, RiskState.init, triggerCircuitBreaker,
    recordRiskEvent, MAX_RISK_EVENTS, habs5, habs50]
  norm_num
  rfl

/-- Claim C2: with the daily loss limit set to −5.0, an `updatePnL(−5.01)`
latches the circuit breaker with a reason mentioning "Daily loss", and
whenever the breaker is latched `canPlaceOrder` rejects every input. -/
theorem claim_C2 :
    (s4Risk.circuitBreakerActive = true
      ∧ "Daily loss".data <:+: s4Risk.circuitBreakerReason.data)
    ∧ (∀ (s : RiskState) (symbol side : String) (price quantity now : ℚ),
        s.circuitBreakerActive = true →
        (canPlaceOrder s symbol side price quantity now).1 = false
        ∧ (canPlaceOrder s symbol side price quantity now).2.1
            = "Circuit breaker active: " ++ s.circuitBreakerReason) := by
  refine ⟨⟨?_, ?_⟩, ?_⟩
  · rw [s4Risk_eval]
  · rw [s4Risk_eval]
    decide
  · intro s symbol side price quantity now hactive
    simp [canPlaceOrder, hactive]

/-- Claim C2, witness: the latched S4 state rejects a sample order. -/
theorem claim_C2_witness :
    (canPlaceOrder s4Risk "ETH-USD" "BUY" 100 (1/100) 0).1 = false
    ∧ (canPlaceOrder s4Risk "ETH-USD" "BUY" 100 (1/100) 0).2.1
      = "Circuit breaker active: " ++ s4Risk.circuitBreakerReason :=
  claim_C2.2 s4Risk "ETH-USD" "BUY" 100 (1/100) 0 (by rw [s4Risk_eval])

/-! ## Claims C3 and C10 — pre-trade position check. -/

/-- Evaluation of the S3 fixture: booking the 0.095 BUY records the 95 %
utilisation POSITION_WARNING and stores net 0.095 under limit 0.1. -/
theorem s3Risk_eval :
    s3Risk = { RiskState.init with
      positions := [("ETH-USD", 19/200)]
      positionLimits := [("ETH-USD", 1/10)]
      riskEvents := [⟨.positionWarning, .warning, "Position utilization high: ",
        "ETH-USD", 19/200, 1/10⟩] } := by
  have habs : |(19/200 : ℚ)| = 19/200 := by norm_num
  have hcond : (4/5 : ℚ) < |19/200| / (1/10) := by
    rw [habs]
    norm_num
  simp only [s3Risk, updatePosition, setPositionLimit, RiskState.init, mapInsert,
    List.lookup, recordRiskEvent, MAX_RISK_EVENTS]
  norm_num [hcond, habs]

/-- Claim C3: with the circuit breaker inactive and a configured position
limit L for the symbol, `canPlaceOrder` rejects on position grounds — reason
containing "Position", one POSITION_LIMIT_EXCEEDED CRITICAL event recorded —
exactly when |net + signed_qty| > L; and in the S3 scenario (limit 0.1, net
0.095, BUY 0.01) it rejects with one such CRITICAL entry in the event log. -/
theorem claim_C3 :
    (∀ (s : RiskState) (symbol side : String) (price quantity now L : ℚ),
      s.circuitBreakerActive = false →
      s.positionLimits.lookup symbol = some L →
      (|(s.positions.lookup symbol).getD 0 + (if side = "BUY" then quantity else -quantity)| > L
        ↔ (canPlaceOrder s symbol side price quantity now).1 = false
          ∧ "Position".data <:+: (canPlaceOrder s symbol side price quantity now).2.1.data
          ∧ (canPlaceOrder s symbol side price quantity now).2.2.riskEvents
              = recordRiskEvent s.riskEvents
                  ⟨.positionLimitExceeded, .critical, "Order rejected: Position limit exceeded",
                   symbol, quantity, L⟩))
    ∧ (∀ price now : ℚ,
        (canPlaceOrder s3Risk "ETH-USD" "BUY" price (1/100) now).1 = false
        ∧ "Position".data <:+:
            (canPlaceOrder s3Risk "ETH-USD" "BUY" price (1/100) now).2.1.data
        ∧ ((canPlaceOrder s3Risk "ETH-USD" "BUY" price (1/100) now).2.2.riskEvents.countP
            (fun e => e.type == RiskEventType.positionLimitExceeded
                      && e.level == RiskLevel.critical)) = 1) := by
  constructor
  · intro s symbol side price quantity now L hactive hlookup
    have hcheck : checkPositionLimits s symbol side quantity
        = decide (|(s.positions.lookup symbol).getD 0
            + (if side = "BUY" then quantity else -quantity)| ≤ L) := by
      simp only [checkPositionLimits, hlookup]
    constructor
    · intro hgt
      have hfail : checkPositionLimits s symbol side quantity = false := by
        rw [hcheck]
        simpa using not_le.mpr hgt
      refine ⟨?_, ?_, ?_⟩
      · simp [canPlaceOrder, hactive, hfail]
      · have h1 : (canPlaceOrder s symbol side price quantity now).2.1
            = "Position limit exceeded for " ++ symbol := by
          simp [canPlaceOrder, hactive, hfail]
        rw [h1]
        have h2 : ("Position limit exceeded for " ++ symbol).data
            = "Position limit exceeded for ".data ++ symbol.data := by
          simp
        rw [h2]
        have h3 : "Position".data <+: "Position limit exceeded for ".data := by decide
        exact ((h3.trans (List.prefix_append _ _)) : "Position".data <+: _).isInfix
      · simp [canPlaceOrder, hactive, hfail, hlookup]
    · rintro ⟨hrej, hpos, hev⟩
      by_contra hle
      have hok : checkPositionLimits s symbol side quantity = true := by
        rw [hcheck]
        simpa using not_lt.mp hle
      by_cases hfin : checkFinancialLimits s = true
      · by_cases hop : checkOperationalLimits s now = true
        · have : (canPlaceOrder s symbol side price quantity now).1 = true := by
            simp [canPlaceOrder, hactive, hok, hfin, hop]
          rw [this] at hrej
          exact Bool.true_eq_false.mp hrej
        · have hop' : checkOperationalLimits s now = false := by simpa using hop
          have : (canPlaceOrder s symbol side price quantity now).2.1
              = "Order rate limit exceeded" := by
            simp [canPlaceOrder, hactive, hok, hfin, hop']
          rw [this] at hpos
          revert hpos
          decide
      · have hfin' : checkFinancialLimits s = false := by simpa using hfin
        have : (canPlaceOrder s symbol side price quantity now).2.1
            = "Financial risk limits exceeded" := by
          simp [canPlaceOrder, hactive, hok, hfin']
        rw [this] at hpos
        revert hpos
        decide
  · intro price now
    rw [s3Risk_eval]
    have habs2 : |(19/200 : ℚ) + 1/100| = 21/200 := by norm_num
    have hfail : checkPositionLimits
        { RiskState.init with
          positions := [("ETH-USD", 19/200)]
          positionLimits := [("ETH-USD", 1/10)]
          riskEvents := [⟨.positionWarning, .warning, "Position utilization high: ",
            "ETH-USD", 19/200, 1/10⟩] } "ETH-USD" "BUY" (1/100) = false := by
      simp only [checkPositionLimits, RiskState.init, List.lookup]
      norm_num
      rw [show |(21/200 : ℚ)| = 21/200 from by norm_num]
      norm_num
    have hres : canPlaceOrder
        { RiskState.init with
          positions := [("ETH-USD", 19/200)]
          positionLimits := [("ETH-USD", 1/10)]
          riskEvents := [⟨.positionWarning, .warning, "Position utilization high: ",
            "ETH-USD", 19/200, 1/10⟩] } "ETH-USD" "BUY" price (1/100) now
        = (false, "Position limit exceeded for " ++ "ETH-USD",
           { RiskState.init with
             positions := [("ETH-USD", 19/200)]
             positionLimits := [("ETH-USD", 1/10)]
             riskEvents := [⟨.positionWarning, .warning, "Position utilization high: ",
                "ETH-USD", 19/200, 1/10⟩,
               ⟨.positionLimitExceeded, .critical, "Order rejected: Position limit exceeded",
                "ETH-USD", 1/100, 1/10⟩] }) := by
      have hcb : ({ RiskState.init with
          positions := [("ETH-USD", 19/200)]
          positionLimits := [("ETH-USD", 1/10)]
          riskEvents := [⟨.positionWarning, .warning, "Position utilization high: ",
            "ETH-USD", 19/200, 1/10⟩] } : RiskState).circuitBreakerActive = false := by
        decide
      unfold canPlaceOrder
      rw [hcb, hfail]
      simp [recordRiskEvent, MAX_RISK_EVENTS, RiskState.init, List.lookup]
    refine ⟨?_, ?_, ?_⟩
    · rw [hres]
    · rw [hres]
      decide
    · rw [hres]
      decide

/-- Claim C3, witness: the general rule applied at the S3 state, with limit
0.1, net 0.095 and a BUY of 0.01. -/
theorem claim_C3_witness :
    |(s3Risk.positions.lookup "ETH-USD").getD 0
        + (if "BUY" = "BUY" then (1/100 : ℚ) else -(1/100))| > 1/10
    ↔ (canPlaceOrder s3Risk "ETH-USD" "BUY" 100 (1/100) 0).1 = false
      ∧ "Position".data <:+: (canPlaceOrder s3Risk "ETH-USD" "BUY" 100 (1/100) 0).2.1.data
      ∧ (canPlaceOrder s3Risk "ETH-USD" "BUY" 100 (1/100) 0).2.2.riskEvents
          = recordRiskEvent s3Risk.riskEvents
              ⟨.positionLimitExceeded, .critical, "Order rejected: Position limit exceeded",
               "ETH-USD", 1/100, 1/10⟩ :=
  claim_C3.1 s3Risk "ETH-USD" "BUY" 100 (1/100) 0 (1/10)
    (by rw [s3Risk_eval]; decide) (by rw [s3Risk_eval]; simp [RiskState.init, List.lookup])

/-- Claim C10: a symbol with no entry in the position-limits map always
passes the position check, and `canPlaceOrder` never rejects it on position
grounds — any rejection reason is the breaker, financial or rate one. -/
theorem claim_C10 :
    ∀ (s : RiskState) (symbol side : String) (price quantity now : ℚ),
      s.positionLimits.lookup symbol = none →
      checkPositionLimits s symbol side quantity = true
      ∧ ((canPlaceOrder s symbol side price quantity now).2.1
            = "Circuit breaker active: " ++ s.circuitBreakerReason
        ∨ (canPlaceOrder s symbol side price quantity now).2.1
            = "Financial risk limits exceeded"
        ∨ (canPlaceOrder s symbol side price quantity now).2.1
            = "Order rate limit exceeded"
        ∨ ((canPlaceOrder s symbol side price quantity now).1 = true
            ∧ (canPlaceOrder s symbol side price quantity now).2.1 = "")) := by
  intro s symbol side price quantity now hnone
  have hok : checkPositionLimits s symbol side quantity = true := by
    simp [checkPositionLimits, hnone]
  refine ⟨hok, ?_⟩
  by_cases hactive : s.circuitBreakerActive = true
  · exact Or.inl (by simp [canPlaceOrder, hactive])
  · have hactive' : s.circuitBreakerActive = false := by
      simpa using hactive
    by_cases hfin : checkFinancialLimits s = true
    · by_cases hop : checkOperationalLimits s now = true
      · exact Or.inr (Or.inr (Or.inr (by simp [canPlaceOrder, hactive', hok, hfin, hop])))
      · have hop' : checkOperationalLimits s now = false := by simpa using hop
        exact Or.inr (Or.inr (Or.inl (by simp [canPlaceOrder, hactive', hok, hfin, hop'])))
    · have hfin' : checkFinancialLimits s = false := by simpa using hfin
      exact Or.inr (Or.inl (by simp [canPlaceOrder, hactive', hok, hfin']))

/-- Claim C10, witness: no limit configured for "BTC-USD" in the S3-style
state, so a huge BUY passes the position check. -/
theorem claim_C10_witness :
    checkPositionLimits
        { RiskState.init with positionLimits := [("ETH-USD", 1/10)] }
        "BTC-USD" "BUY" 1000000 = true
    ∧ ((canPlaceOrder { RiskState.init with positionLimits := [("ETH-USD", 1/10)] }
          "BTC-USD" "BUY" 100 1000000 0).2.1
          = "Circuit breaker active: "
            ++ ({ RiskState.init with
                  positionLimits := [("ETH-USD", 1/10)] } : RiskState).circuitBreakerReason
      ∨ (canPlaceOrder { RiskState.init with positionLimits := [("ETH-USD", 1/10)] }
          "BTC-USD" "BUY" 100 1000000 0).2.1 = "Financial risk limits exceeded"
      ∨ (canPlaceOrder { RiskState.init with positionLimits := [("ETH-USD", 1/10)] }
          "BTC-USD" "BUY" 100 1000000 0).2.1 = "Order rate limit exceeded"
      ∨ ((canPlaceOrder { RiskState.init with positionLimits := [("ETH-USD", 1/10)] }
            "BTC-USD" "BUY" 100 1000000 0).1 = true
          ∧ (canPlaceOrder { RiskState.init with positionLimits := [("ETH-USD", 1/10)] }
              "BTC-USD" "BUY" 100 1000000 0).2.1 = "")) :=
  claim_C10 { RiskState.init with positionLimits := [("ETH-USD", 1/10)] }
    "BTC-USD" "BUY" 100 1000000 0 (by simp [RiskState.init, List.lookup])

/-! ## Claim C4 — paper-mode fill simulation. -/

/-- Claim C4: the simulated fill probability equals the spec's formula —
base 0.30, ×1.8 for rebalancing, ×0.4 for compounding, clamped to ≤ 0.65 —
and a successful draw emits a fill for the full quantity at the order's
price (a failed draw emits nothing). -/
theorem claim_C4 :
    (∀ (side : Char) (pos : ℚ), fillProbability side pos = fillProbabilitySpec side pos)
    ∧ (∀ (side : Char) (pos : ℚ), fillProbability side pos ≤ 13/20)
    ∧ (∀ (o : SimOrder) (pos draw : ℚ), draw < fillProbability o.side pos →
        simulateFill o pos draw = some ⟨o.price, o.quantity⟩)
    ∧ (∀ (o : SimOrder) (pos draw : ℚ), ¬ draw < fillProbability o.side pos →
        simulateFill o pos draw = none) := by
  refine ⟨?_, ?_, ?_, ?_⟩
  · intro side pos
    by_cases h1 : (side = 'S' ∧ pos > 1/100) ∨ (side = 'B' ∧ pos < -(1/100)) <;>
      by_cases h2 : (side = 'B' ∧ pos > 1/100) ∨ (side = 'S' ∧ pos < -(1/100)) <;>
        simp [fillProbability, fillProbabilitySpec, h1, h2]
  · intro side pos
    exact min_le_right _ _
  · intro o pos draw h
    simp [simulateFill, h]
  · intro o pos draw h
    simp [simulateFill, h]

/-- Claim C4, witness: a SELL with inventory +0.02 (rebalancing) and draw
0.5 < 0.54 fills fully at the order's price. -/
theorem claim_C4_witness :
    simulateFill ⟨'S', 100, (1/100 : ℚ)⟩ (1/50) (1/2) = some ⟨100, 1/100⟩ :=
  claim_C4.2.2.1 ⟨'S', 100, (1/100 : ℚ)⟩ (1/50) (1/2)
    (by
      have hc : ¬ ('S' = 'B') := by decide
      norm_num [fillProbability, hc])

/-! ## Claim C9 — latency metrics recurrence and min/max. -/

/-- Helper: a left fold of `min` never exceeds its start value. -/
theorem foldlMin_le_start (l : List ℕ) (a : ℕ) : l.foldl min a ≤ a := by
  induction l generalizing a with
  | nil => simp
  | cons x xs ih => exact le_trans (ih (min a x)) (min_le_left a x)

/-- Helper: a left fold of `min` is a lower bound of the list. -/
theorem foldlMin_le_mem (l : List ℕ) (a : ℕ) : ∀ x ∈ l, l.foldl min a ≤ x := by
  induction l generalizing a with
  | nil => intro x hx; cases hx
  | cons y ys ih =>
    intro x hx
    rcases List.mem_cons.mp hx with h | h
    · subst h
      exact le_trans (foldlMin_le_start ys (min a x)) (min_le_right a x)
    · exact ih (min a y) x h

/-- Helper: a left fold of `min` is the start value or a list element. -/
theorem foldlMin_eq_or_mem (l : List ℕ) (a : ℕ) :
    l.foldl min a = a ∨ l.foldl min a ∈ l := by
  induction l generalizing a with
  | nil => exact Or.inl rfl
  | cons y ys ih =>
    rcases ih (min a y) with h | h
    · by_cases hay : a ≤ y
      · exact Or.inl (by rw [List.foldl_cons, h, min_eq_left hay])
      · refine Or.inr ?_
        have hm : min a y = y := min_eq_right (le_of_not_le hay)
        rw [List.foldl_cons, h, hm]
        exact List.mem_cons_self y ys
    · exact Or.inr (List.mem_cons_of_mem y h)

/-- Helper: a left fold of `max` is at least its start value. -/
theorem foldlMax_ge_start (l : List ℕ) (a : ℕ) : a ≤ l.foldl max a := by
  induction l generalizing a with
  | nil => simp
  | cons x xs ih => exact le_trans (le_max_left a x) (ih (max a x))

/-- Helper: a left fold of `max` is an upper bound of the list. -/
theorem foldlMax_ge_mem (l : List ℕ) (a : ℕ) : ∀ x ∈ l, x ≤ l.foldl max a := by
  induction l generalizing a with
  | nil => intro x hx; cases hx
  | cons y ys ih =>
    intro x hx
    rcases List.mem_cons.mp hx with h | h
    · subst h
      exact le_trans (le_max_right a x) (foldlMax_ge_start ys (max a x))
    · exact ih (max a y) x h

/-- Helper: a left fold of `max` is the start value or a list element. -/
theorem foldlMax_eq_or_mem (l : List ℕ) (a : ℕ) :
    l.foldl max a = a ∨ l.foldl max a ∈ l := by
  induction l generalizing a with
  | nil => exact Or.inl rfl
  | cons y ys ih =>
    rcases ih (max a y) with h | h
    · by_cases hya : y ≤ a
      · exact Or.inl (by rw [List.foldl_cons, h, max_eq_left hya])
      · refine Or.inr ?_
        have hm : max a y = y := max_eq_right (le_of_not_le hya)
        rw [List.foldl_cons, h, hm]
        exact List.mem_cons_self y ys
    · exact Or.inr (List.mem_cons_of_mem y h)

/-- Helper: the min metric of a sample fold is the fold of `min`. -/
theorem processLatency_minNs (samples : List ℕ) (m : LatencyMetrics) :
    (processLatencySamples m samples).minNs = samples.foldl min m.minNs := by
  induction samples generalizing m with
  | nil => rfl
  | cons x xs ih =>
    have h1 : processLatencySamples m (x :: xs)
        = processLatencySamples (updateLatencyMetrics m x) xs := rfl
    rw [h1, ih (updateLatencyMetrics m x)]
    rfl

/-- Helper: the max metric of a sample fold is the fold of `max`. -/
theorem processLatency_maxNs (samples : List ℕ) (m : LatencyMetrics) :
    (processLatencySamples m samples).maxNs = samples.foldl max m.maxNs := by
  induction samples generalizing m with
  | nil => rfl
  | cons x xs ih =>
    have h1 : processLatencySamples m (x :: xs)
        = processLatencySamples (updateLatencyMetrics m x) xs := rfl
    rw [h1, ih (updateLatencyMetrics m x)]
    rfl

/-- Claim C9: each latency sample updates the running average by exactly
avg ← (avg_prev + sample)/2 (uint64 arithmetic; exact as long as the sum
does not wrap), and after any non-empty uint64 sample sequence the min and
max metrics are the minimum and maximum of the samples seen. -/
theorem claim_C9 :
    (∀ (m : LatencyMetrics) (s : ℕ), m.avgNs + s < 2 ^ 64 →
      (updateLatencyMetrics m s).avgNs = (m.avgNs + s) / 2)
    ∧ (∀ samples : List ℕ, samples ≠ [] → (∀ x ∈ samples, x ≤ UINT64_MAX) →
        ((processLatencySamples LatencyMetrics.init samples).minNs ∈ samples
          ∧ ∀ x ∈ samples, (processLatencySamples LatencyMetrics.init samples).minNs ≤ x)
        ∧ ((processLatencySamples LatencyMetrics.init samples).maxNs ∈ samples
          ∧ ∀ x ∈ samples, x ≤ (processLatencySamples LatencyMetrics.init samples).maxNs)) := by
  constructor
  · intro m s h
    show ((m.avgNs + s) % 2 ^ 64) / 2 = (m.avgNs + s) / 2
    rw [Nat.mod_eq_of_lt h]
  · intro samples hne hbound
    obtain ⟨y, ys, rfl⟩ := List.exists_cons_of_ne_nil hne
    constructor
    · refine ⟨?_, ?_⟩
      · rw [processLatency_minNs]
        rcases foldlMin_eq_or_mem (y :: ys) LatencyMetrics.init.minNs with h | h
        · have h1 : (y :: ys).foldl min LatencyMetrics.init.minNs ≤ y :=
            foldlMin_le_mem _ _ y (List.mem_cons_self y ys)
          have h2 : y ≤ UINT64_MAX := hbound y (List.mem_cons_self y ys)
          have h3 : (y :: ys).foldl min LatencyMetrics.init.minNs = y := by
            have : LatencyMetrics.init.minNs = UINT64_MAX := rfl
            omega
          rw [h3]
          exact List.mem_cons_self y ys
        · exact h
      · intro x hx
        rw [processLatency_minNs]
        exact foldlMin_le_mem _ _ x hx
    · refine ⟨?_, ?_⟩
      · rw [processLatency_maxNs]
        rcases foldlMax_eq_or_mem (y :: ys) LatencyMetrics.init.maxNs with h | h
        · have h1 : y ≤ (y :: ys).foldl max LatencyMetrics.init.maxNs :=
            foldlMax_ge_mem _ _ y (List.mem_cons_self y ys)
          have h3 : (y :: ys).foldl max LatencyMetrics.init.maxNs = y := by
            have : LatencyMetrics.init.maxNs = 0 := rfl
            omega
          rw [h3]
          exact List.mem_cons_self y ys
        · exact h
      · intro x hx
        rw [processLatency_maxNs]
        exact foldlMax_ge_mem _ _ x hx

/-- Claim C9, witness: one update at avg 4 with sample 10 gives (4+10)/2 = 7,
and the samples 5, 3, 7 give min 3 and max 7. -/
theorem claim_C9_witness :
    (updateLatencyMetrics ⟨4, UINT64_MAX, 0⟩ 10).avgNs = (4 + 10) / 2
    ∧ ((processLatencySamples LatencyMetrics.init [5, 3, 7]).minNs ∈ [5, 3, 7]
        ∧ ∀ x ∈ [5, 3, 7], (processLatencySamples LatencyMetrics.init [5, 3, 7]).minNs ≤ x)
    ∧ ((processLatencySamples LatencyMetrics.init [5, 3, 7]).maxNs ∈ [5, 3, 7]
        ∧ ∀ x ∈ [5, 3, 7], x ≤ (processLatencySamples LatencyMetrics.init [5, 3, 7]).maxNs) :=
  ⟨claim_C9.1 ⟨4, UINT64_MAX, 0⟩ 10 (by norm_num),
   (claim_C9.2 [5, 3, 7] (by decide)
      (by intro x hx; fin_cases hx <;> norm_num [UINT64_MAX])).1,
   (claim_C9.2 [5, 3, 7] (by decide)
      (by intro x hx; fin_cases hx <;> norm_num [UINT64_MAX])).2⟩

/-! ## Claim C5 — order-book snapshot. -/

/-- Evaluation of the S1 fixture book: the snapshot message builds the two
sorted sides. -/
theorem s1Book_eval :
    s1Book = ⟨"ETH-USD", [(100, 1), (9999/100, 2)], [(10002/100, 1), (10003/100, 3)], 1⟩ := by
  have hob : ("offer" = "bid") = False := eq_false (by decide)
  norm_num [s1Book, s1Msg, updateFromWebSocket, Book.empty, applySnapshotEntries,
    insertDesc, insertAsc, hob]

/-- Claim C5: the snapshot's best bid is the highest stored bid price and
the best ask the lowest stored ask price (given the map iteration order the
C++ comparators guarantee), spread and spread_bps are computed from them as
spread = ask − bid and spread_bps = spread/mid·10000, `valid` iff both
sides are non-empty; on the S1 book this gives best_bid 100.00, best_ask
100.02, spread 0.02, spread_bps within 0.01 of 2.0, and valid. -/
theorem claim_C5 :
    (∀ b : Book, b.bids.Sorted (fun x y => x.1 > y.1) →
      (∀ pq ∈ b.bids, pq.1 ≤ (getSnapshot b).bestBidPrice)
      ∧ (b.bids ≠ [] → (getSnapshot b).bestBidPrice ∈ b.bids.map Prod.fst))
    ∧ (∀ b : Book, b.asks.Sorted (fun x y => x.1 < y.1) →
      (∀ pq ∈ b.asks, (getSnapshot b).bestAskPrice ≤ pq.1)
      ∧ (b.asks ≠ [] → (getSnapshot b).bestAskPrice ∈ b.asks.map Prod.fst))
    ∧ (∀ b : Book, b.bids ≠ [] → b.asks ≠ [] →
      (getSnapshot b).spread = (getSnapshot b).bestAskPrice - (getSnapshot b).bestBidPrice
      ∧ (((getSnapshot b).bestBidPrice + (getSnapshot b).bestAskPrice) / 2 > 0 →
          (getSnapshot b).spreadBps
            = (getSnapshot b).spread
              / (((getSnapshot b).bestBidPrice + (getSnapshot b).bestAskPrice) / 2) * 10000))
    ∧ (∀ b : Book, (getSnapshot b).isValid = true ↔ (b.bids ≠ [] ∧ b.asks ≠ []))
    ∧ ((getSnapshot s1Book).bestBidPrice = 100
      ∧ (getSnapshot s1Book).bestAskPrice = 10002/100
      ∧ (getSnapshot s1Book).spread = 2/100
      ∧ |(getSnapshot s1Book).spreadBps - 2| < 1/100
      ∧ (getSnapshot s1Book).isValid = true) := by
  refine ⟨?_, ?_, ?_, ?_, ?_⟩
  · intro b hsort
    cases hb : b.bids with
    | nil =>
      constructor
      · intro pq hpq
        cases hpq
      · intro h
        exact absurd rfl h
    | cons hd tl =>
      have hbest : (getSnapshot b).bestBidPrice = hd.1 := by
        simp [getSnapshot, hb]
      constructor
      · intro pq hpq
        rw [hbest]
        rcases List.mem_cons.mp hpq with h | h
        · exact le_of_eq (congrArg Prod.fst h)
        · rw [hb] at hsort
          exact le_of_lt (List.rel_of_sorted_cons hsort pq h)
      · intro _
        rw [hbest]
        exact List.mem_map_of_mem Prod.fst (List.mem_cons_self hd tl)
  · intro b hsort
    cases hb : b.asks with
    | nil =>
      constructor
      · intro pq hpq
        cases hpq
      · intro h
        exact absurd rfl h
    | cons hd tl =>
      have hbest : (getSnapshot b).bestAskPrice = hd.1 := by
        simp [getSnapshot, hb]
      constructor
      · intro pq hpq
        rw [hbest]
        rcases List.mem_cons.mp hpq with h | h
        · exact le_of_eq (congrArg Prod.fst h).symm
        · rw [hb] at hsort
          exact le_of_lt (List.rel_of_sorted_cons hsort pq h)
      · intro _
        rw [hbest]
        exact List.mem_map_of_mem Prod.fst (List.mem_cons_self hd tl)
  · intro b hbids hasks
    obtain ⟨x, xs, hb⟩ := List.exists_cons_of_ne_nil hbids
    obtain ⟨y, ys, ha⟩ := List.exists_cons_of_ne_nil hasks
    constructor
    · simp [getSnapshot, hb, ha]
    · intro hmid
      have : (x.1 + y.1) / 2 > 0 := by
        simpa [getSnapshot, hb, ha] using hmid
      simp [getSnapshot, hb, ha, this]
  · intro b
    constructor
    · intro hv
      have := by simpa [getSnapshot, List.isEmpty_iff] using hv
      exact this
    · intro ⟨h1, h2⟩
      simp [getSnapshot, List.isEmpty_iff, h1, h2]
  · rw [s1Book_eval]
    refine ⟨?_, ?_, ?_, ?_, ?_⟩ <;>
      norm_num [getSnapshot]
    rw [show |(2/10001 : ℚ)| = 2/10001 from by norm_num]
    norm_num

/-- Claim C5, witness: the descending-sorted S1 bids have best bid 100 as an
upper bound and member. -/
theorem claim_C5_witness :
    ((∀ pq ∈ s1Book.bids, pq.1 ≤ (getSnapshot s1Book).bestBidPrice)
      ∧ (s1Book.bids ≠ [] → (getSnapshot s1Book).bestBidPrice ∈ s1Book.bids.map Prod.fst)) :=
  claim_C5.1 s1Book (by rw [s1Book_eval]; norm_num [List.Sorted])

/-! ## Claim C6 — order-book invariants after mutations. -/

/-- Helper: an aborted-free prefix of snapshot entries composes. -/
theorem applySnapshotEntries_append (xs ys : List WSEntry) (b : Book)
    (h : (applySnapshotEntries xs b).2 = true) :
    applySnapshotEntries (xs ++ ys) b
      = applySnapshotEntries ys (applySnapshotEntries xs b).1 := by
  induction xs generalizing b with
  | nil => rfl
  | cons e xs ih =>
    by_cases hf : e.hasFields
    · cases hp : e.price with
      | bad =>
        exfalso
        simp [applySnapshotEntries, hf, hp] at h
      | ok p =>
        cases hq : e.qty with
        | bad =>
          exfalso
          simp [applySnapshotEntries, hf, hp, hq] at h
        | ok q =>
          simp only [List.cons_append, applySnapshotEntries, hf, if_true, hp, hq]
          refine ih _ ?_
          simpa only [applySnapshotEntries, hf, if_true, hp, hq] using h
    · have hf' : e.hasFields = false := by simpa using hf
      simp only [List.cons_append, applySnapshotEntries, hf', Bool.false_eq_true, if_false]
      refine ih _ ?_
      simpa only [applySnapshotEntries, hf', Bool.false_eq_true, if_false] using h

/-- Helper: inserting the next higher price prepends to the generated side. -/
theorem insertDesc_genBids (n : ℕ) :
    insertDesc ((n + 1 : ℕ) : ℚ) 1 (genBids n) = (((n + 1 : ℕ) : ℚ), 1) :: genBids n := by
  cases n with
  | zero => rfl
  | succ m =>
    have hgt : ((m + 2 : ℕ) : ℚ) > ((m + 1 : ℕ) : ℚ) := by
      exact_mod_cast Nat.lt_succ_self (m + 1)
    simp only [genBids, insertDesc]
    rw [if_pos hgt]

/-- Helper: the 1..n ascending bid entries build the n-level book. -/
theorem c6_apply (n : ℕ) :
    applySnapshotEntries (c6Entries n) (⟨"ETH-USD", [], [], 0⟩ : Book)
      = (⟨"ETH-USD", genBids n, [], 0⟩, true) := by
  induction n with
  | zero => rfl
  | succ m ih =>
    have hsplit : c6Entries (m + 1)
        = c6Entries m ++ [⟨true, .ok ((m + 1 : ℕ) : ℚ), .ok 1, "bid"⟩] := by
      simp [c6Entries, List.range_succ]
    rw [hsplit, applySnapshotEntries_append _ _ _ (by rw [ih]), ih]
    simp only [applySnapshotEntries, if_true]
    rw [if_pos (show (1 : ℚ) > 0 from by norm_num)]
    rw [insertDesc_genBids m]
    rfl

/-- Helper: the generated side has one level per entry. -/
theorem genBids_length (n : ℕ) : (genBids n).length = n := by
  induction n with
  | zero => rfl
  | succ m ih => simp [genBids, ih]

/-- Helper: branch selection of `updateFromWebSocket` for a matching
snapshot message, stated generically so no concrete batch is evaluated. -/
theorem updateFromWebSocket_snapshot_eq (msg : WSMessage) (b : Book)
    (h1 : msg.hasType = true) (h2 : msg.hasProductId = true)
    (h3 : msg.productId = b.symbol) (h4 : msg.msgType = "snapshot")
    (h5 : msg.hasUpdates = true) :
    updateFromWebSocket msg b
      = (if (applySnapshotEntries msg.updates { b with bids := [], asks := [] }).2 then
           ({ (applySnapshotEntries msg.updates { b with bids := [], asks := [] }).1 with
              updateCount := (applySnapshotEntries msg.updates
                { b with bids := [], asks := [] }).1.updateCount + 1 }, true)
         else ((applySnapshotEntries msg.updates { b with bids := [], asks := [] }).1,
           false)) := by
  simp [updateFromWebSocket, h1, h2, h3, h4, h5]

/-- Claim C6, counterexample: a single well-formed WebSocket snapshot with
101 bid levels leaves 101 levels stored — the WebSocket update path never
calls `cleanupLevels`, so the 100-level cap is not enforced there. -/
theorem claim_C6_counterexample :
    (updateFromWebSocket c6Msg (Book.empty "ETH-USD")).2 = true
    ∧ (updateFromWebSocket c6Msg (Book.empty "ETH-USD")).1.bids.length = 101
    ∧ MAX_LEVELS < (updateFromWebSocket c6Msg (Book.empty "ETH-USD")).1.bids.length := by
  have hres : updateFromWebSocket c6Msg (Book.empty "ETH-USD")
      = (⟨"ETH-USD", genBids 101, [], 1⟩, true) := by
    rw [updateFromWebSocket_snapshot_eq c6Msg (Book.empty "ETH-USD") rfl rfl rfl rfl rfl]
    simp only [show c6Msg.updates = c6Entries 101 from rfl,
      show ({ Book.empty "ETH-USD" with bids := [], asks := [] } : Book)
          = (⟨"ETH-USD", [], [], 0⟩ : Book) from rfl]
    rw [c6_apply 101]
    rfl
  rw [hres]
  refine ⟨rfl, ?_, ?_⟩
  · simp [genBids_length]
  · simp [genBids_length, MAX_LEVELS]

/-- Helper: inserting a non-zero quantity preserves the invariant (bids). -/
theorem insertDesc_noZero (p q : ℚ) (l : BookSide) (hq : q ≠ 0) (hl : noZeroQty l) :
    noZeroQty (insertDesc p q l) := by
  induction l with
  | nil =>
    intro e he
    rcases List.mem_singleton.mp he with rfl
    exact hq
  | cons hd tl ih =>
    have hhd : hd.2 ≠ 0 := hl hd (List.mem_cons_self hd tl)
    have htl : noZeroQty tl := fun e he => hl e (List.mem_cons_of_mem hd he)
    intro e he
    simp only [insertDesc] at he
    split at he
    · rcases List.mem_cons.mp he with rfl | he'
      · exact hq
      · exact hl e he'
    · split at he
      · rcases List.mem_cons.mp he with rfl | he'
        · exact hq
        · exact htl e he'
      · rcases List.mem_cons.mp he with rfl | he'
        · exact hhd
        · exact ih htl e he'

/-- Helper: inserting a non-zero quantity preserves the invariant (asks). -/
theorem insertAsc_noZero (p q : ℚ) (l : BookSide) (hq : q ≠ 0) (hl : noZeroQty l) :
    noZeroQty (insertAsc p q l) := by
  induction l with
  | nil =>
    intro e he
    rcases List.mem_singleton.mp he with rfl
    exact hq
  | cons hd tl ih =>
    have hhd : hd.2 ≠ 0 := hl hd (List.mem_cons_self hd tl)
    have htl : noZeroQty tl := fun e he => hl e (List.mem_cons_of_mem hd he)
    intro e he
    simp only [insertAsc] at he
    split at he
    · rcases List.mem_cons.mp he with rfl | he'
      · exact hq
      · exact hl e he'
    · split at he
      · rcases List.mem_cons.mp he with rfl | he'
        · exact hq
        · exact htl e he'
      · rcases List.mem_cons.mp he with rfl | he'
        · exact hhd
        · exact ih htl e he'

/-- Helper: erasing a level preserves the invariant. -/
theorem eraseKey_noZero (p : ℚ) (l : BookSide) (hl : noZeroQty l) :
    noZeroQty (eraseKey p l) :=
  fun e he => hl e (List.mem_of_mem_filter he)

/-- Helper: truncation preserves the invariant. -/
theorem take_noZero (n : ℕ) (l : BookSide) (hl : noZeroQty l) :
    noZeroQty (l.take n) :=
  fun e he => hl e (List.mem_of_mem_take he)

/-- Helper: the bid-update fold preserves the invariant on both sides. -/
theorem updateBids_fold_noZero (levels : List (List Parsed)) (b : Book)
    (hb : noZeroQty b.bids) (ha : noZeroQty b.asks) :
    noZeroQty (levels.foldl
      (fun bk lv =>
        match parseDepthLevel lv with
        | some (p, q) =>
          if q = 0 then { bk with bids := eraseKey p bk.bids }
          else { bk with bids := insertDesc p q bk.bids }
        | none => bk) b).bids
    ∧ noZeroQty (levels.foldl
      (fun bk lv =>
        match parseDepthLevel lv with
        | some (p, q) =>
          if q = 0 then { bk with bids := eraseKey p bk.bids }
          else { bk with bids := insertDesc p q bk.bids }
        | none => bk) b).asks := by
  induction levels generalizing b with
  | nil => exact ⟨hb, ha⟩
  | cons lv rest ih =>
    simp only [List.foldl_cons]
    cases hpl : parseDepthLevel lv with
    | none => exact ih b hb ha
    | some pq =>
      obtain ⟨p, q⟩ := pq
      by_cases hq : q = 0
      · simpa [hpl, hq] using
          ih { b with bids := eraseKey p b.bids } (eraseKey_noZero p b.bids hb) ha
      · simpa [hpl, hq] using
          ih { b with bids := insertDesc p q b.bids } (insertDesc_noZero p q b.bids hq hb) ha

/-- Helper: the ask-update fold preserves the invariant on both sides. -/
theorem updateAsks_fold_noZero (levels : List (List Parsed)) (b : Book)
    (hb : noZeroQty b.bids) (ha : noZeroQty b.asks) :
    noZeroQty (levels.foldl
      (fun bk lv =>
        match parseDepthLevel lv with
        | some (p, q) =>
          if q = 0 then { bk with asks := eraseKey p bk.asks }
          else { bk with asks := insertAsc p q bk.asks }
        | none => bk) b).bids
    ∧ noZeroQty (levels.foldl
      (fun bk lv =>
        match parseDepthLevel lv with
        | some (p, q) =>
          if q = 0 then { bk with asks := eraseKey p bk.asks }
          else { bk with asks := insertAsc p q bk.asks }
        | none => bk) b).asks := by
  induction levels generalizing b with
  | nil => exact ⟨hb, ha⟩
  | cons lv rest ih =>
    simp only [List.foldl_cons]
    cases hpl : parseDepthLevel lv with
    | none => exact ih b hb ha
    | some pq =>
      obtain ⟨p, q⟩ := pq
      by_cases hq : q = 0
      · simpa [hpl, hq] using
          ih { b with asks := eraseKey p b.asks } hb (eraseKey_noZero p b.asks ha)
      · simpa [hpl, hq] using
          ih { b with asks := insertAsc p q b.asks } hb (insertAsc_noZero p q b.asks hq ha)

/-- Helper: the snapshot-entry loop preserves the invariant on both sides. -/
theorem applySnapshotEntries_noZero (es : List WSEntry) (b : Book)
    (hb : noZeroQty b.bids) (ha : noZeroQty b.asks) :
    noZeroQty (applySnapshotEntries es b).1.bids
    ∧ noZeroQty (applySnapshotEntries es b).1.asks := by
  induction es generalizing b with
  | nil => exact ⟨hb, ha⟩
  | cons e rest ih =>
    by_cases hf : e.hasFields
    · cases hp : e.price with
      | bad => simpa [applySnapshotEntries, hf, hp] using And.intro hb ha
      | ok p =>
        cases hq : e.qty with
        | bad => simpa [applySnapshotEntries, hf, hp, hq] using And.intro hb ha
        | ok q =>
          simp only [applySnapshotEntries, hf, if_true, hp, hq]
          by_cases hqpos : q > 0
          · by_cases hside : e.side = "bid"
            · simpa [hqpos, hside] using
                ih { b with bids := insertDesc p q b.bids }
                  (insertDesc_noZero p q b.bids (ne_of_gt hqpos) hb) ha
            · by_cases hside2 : e.side = "offer"
              · simpa [hqpos, hside, hside2] using
                  ih { b with asks := insertAsc p q b.asks } hb
                    (insertAsc_noZero p q b.asks (ne_of_gt hqpos) ha)
              · simpa [hqpos, hside, hside2] using ih b hb ha
          · simpa [hqpos] using ih b hb ha
    · have hf' : e.hasFields = false := by simpa using hf
      simpa [applySnapshotEntries, hf'] using ih b hb ha

/-- Helper: the update-entry loop preserves the invariant on both sides. -/
theorem applyUpdateEntries_noZero (es : List WSEntry) (b : Book)
    (hb : noZeroQty b.bids) (ha : noZeroQty b.asks) :
    noZeroQty (applyUpdateEntries es b).1.bids
    ∧ noZeroQty (applyUpdateEntries es b).1.asks := by
  induction es generalizing b with
  | nil => exact ⟨hb, ha⟩
  | cons e rest ih =>
    by_cases hf : e.hasFields
    · cases hp : e.price with
      | bad => simpa [applyUpdateEntries, hf, hp] using And.intro hb ha
      | ok p =>
        cases hq : e.qty with
        | bad => simpa [applyUpdateEntries, hf, hp, hq] using And.intro hb ha
        | ok q =>
          simp only [applyUpdateEntries, hf, if_true, hp, hq]
          by_cases hside : e.side = "bid"
          · by_cases hq0 : q = 0
            · simpa [hside, hq0] using
                ih { b with bids := eraseKey p b.bids } (eraseKey_noZero p b.bids hb) ha
            · simpa [hside, hq0] using
                ih { b with bids := insertDesc p q b.bids }
                  (insertDesc_noZero p q b.bids hq0 hb) ha
          · by_cases hside2 : e.side = "offer"
            · by_cases hq0 : q = 0
              · simpa [hside, hside2, hq0] using
                  ih { b with asks := eraseKey p b.asks } hb (eraseKey_noZero p b.asks ha)
              · simpa [hside, hside2, hq0] using
                  ih { b with asks := insertAsc p q b.asks } hb
                    (insertAsc_noZero p q b.asks hq0 ha)
            · simpa [hside, hside2] using ih b hb ha
    · have hf' : e.hasFields = false := by simpa using hf
      simpa [applyUpdateEntries, hf'] using ih b hb ha

/-- Claim C6, amended: after `updateBids`/`updateAsks` each side stores at
most 100 levels (`cleanupLevels` prunes the tail) and the no-zero-quantity
invariant is preserved; WebSocket-path mutations preserve no-zero-quantity
on both sides but do not enforce the 100-level cap (no pruning there). -/
theorem claim_C6 :
    (∀ (levels : List (List Parsed)) (b : Book),
      (updateBids levels b).bids.length ≤ MAX_LEVELS
      ∧ (updateBids levels b).asks.length ≤ MAX_LEVELS
      ∧ (updateAsks levels b).bids.length ≤ MAX_LEVELS
      ∧ (updateAsks levels b).asks.length ≤ MAX_LEVELS)
    ∧ (∀ (levels : List (List Parsed)) (b : Book),
        noZeroQty b.bids → noZeroQty b.asks →
        (noZeroQty (updateBids levels b).bids ∧ noZeroQty (updateBids levels b).asks)
        ∧ (noZeroQty (updateAsks levels b).bids ∧ noZeroQty (updateAsks levels b).asks))
    ∧ (∀ (msg : WSMessage) (b : Book),
        noZeroQty b.bids → noZeroQty b.asks →
        noZeroQty (updateFromWebSocket msg b).1.bids
        ∧ noZeroQty (updateFromWebSocket msg b).1.asks) := by
  refine ⟨?_, ?_, ?_⟩
  · intro levels b
    refine ⟨?_, ?_, ?_, ?_⟩ <;>
      simp [updateBids, updateAsks, cleanupLevels, List.length_take]
  · intro levels b hb ha
    constructor
    · have h := updateBids_fold_noZero levels b hb ha
      exact ⟨take_noZero _ _ h.1, take_noZero _ _ h.2⟩
    · have h := updateAsks_fold_noZero levels b hb ha
      exact ⟨take_noZero _ _ h.1, take_noZero _ _ h.2⟩
  · intro msg b hb ha
    by_cases hh : msg.hasType ∧ msg.hasProductId
    · by_cases hpid : msg.productId ≠ b.symbol
      · simpa [updateFromWebSocket, hh, hpid] using And.intro hb ha
      · by_cases hsnap : msg.msgType = "snapshot"
        · by_cases hupd : msg.hasUpdates
          · have h := applySnapshotEntries_noZero msg.updates
              { b with bids := [], asks := [] } (by intro e he; cases he)
              (by intro e he; cases he)
            by_cases hok : (applySnapshotEntries msg.updates { b with bids := [], asks := [] }).2
            · simpa [updateFromWebSocket, hh, hpid, hsnap, hupd, hok] using h
            · have hok' : (applySnapshotEntries msg.updates
                  { b with bids := [], asks := [] }).2 = false := by simpa using hok
              simpa [updateFromWebSocket, hh, hpid, hsnap, hupd, hok'] using h
          · have hnil : noZeroQty ([] : BookSide) := by intro e he; cases he
            simpa [updateFromWebSocket, hh, hpid, hsnap, hupd] using And.intro hnil hnil
        · by_cases hupd2 : msg.msgType = "update"
          · by_cases hupd : msg.hasUpdates
            · have h := applyUpdateEntries_noZero msg.updates b hb ha
              by_cases hok : (applyUpdateEntries msg.updates b).2
              · simpa [updateFromWebSocket, hh, hpid, hsnap, hupd2, hupd, hok] using h
              · have hok' : (applyUpdateEntries msg.updates b).2 = false := by
                  simpa using hok
                simpa [updateFromWebSocket, hh, hpid, hsnap, hupd2, hupd, hok'] using h
            · simpa [updateFromWebSocket, hh, hpid, hsnap, hupd2, hupd] using
                And.intro hb ha
          · simpa [updateFromWebSocket, hh, hpid, hsnap, hupd2] using And.intro hb ha
    · simpa [updateFromWebSocket, hh] using And.intro hb ha

/-- Claim C6, witness: the S1 snapshot applied to the empty book leaves no
zero-quantity level on either side. -/
theorem claim_C6_witness :
    noZeroQty (updateFromWebSocket s1Msg (Book.empty "ETH-USD")).1.bids
    ∧ noZeroQty (updateFromWebSocket s1Msg (Book.empty "ETH-USD")).1.asks :=
  claim_C6.2.2 s1Msg (Book.empty "ETH-USD")
    (by intro e he; cases he) (by intro e he; cases he)

/-! ## Claim C7 — failure semantics of market-data parsing. -/

/-- Helper: branch selection of `updateFromWebSocket` for a matching update
message. -/
theorem updateFromWebSocket_update_eq (msg : WSMessage) (b : Book)
    (h1 : msg.hasType = true) (h2 : msg.hasProductId = true)
    (h3 : msg.productId = b.symbol) (h4 : msg.msgType = "update")
    (h5 : msg.hasUpdates = true) :
    updateFromWebSocket msg b
      = (if (applyUpdateEntries msg.updates b).2 then
           ({ (applyUpdateEntries msg.updates b).1 with
              updateCount := (applyUpdateEntries msg.updates b).1.updateCount + 1 }, true)
         else ((applyUpdateEntries msg.updates b).1, false)) := by
  have h6 : msg.msgType ≠ "snapshot" := by
    rw [h4]
    decide
  simp [updateFromWebSocket, h1, h2, h3, h4, h5, h6]

/-- Helper: an abort-free prefix of update entries composes. -/
theorem applyUpdateEntries_append (xs ys : List WSEntry) (b : Book)
    (h : (applyUpdateEntries xs b).2 = true) :
    applyUpdateEntries (xs ++ ys) b
      = applyUpdateEntries ys (applyUpdateEntries xs b).1 := by
  induction xs generalizing b with
  | nil => rfl
  | cons e xs ih =>
    by_cases hf : e.hasFields
    · cases hp : e.price with
      | bad =>
        exfalso
        simp [applyUpdateEntries, hf, hp] at h
      | ok p =>
        cases hq : e.qty with
        | bad =>
          exfalso
          simp [applyUpdateEntries, hf, hp, hq] at h
        | ok q =>
          simp only [List.cons_append, applyUpdateEntries, hf, if_true, hp, hq]
          refine ih _ ?_
          simpa only [applyUpdateEntries, hf, if_true, hp, hq] using h
    · have hf' : e.hasFields = false := by simpa using hf
      simp only [List.cons_append, applyUpdateEntries, hf', Bool.false_eq_true, if_false]
      refine ih _ ?_
      simpa only [applyUpdateEntries, hf', Bool.false_eq_true, if_false] using h

/-- Helper: a present entry with an unparsable numeric field aborts the
update loop at that entry, keeping only the prefix's mutations. -/
theorem applyUpdateEntries_abort (pre post : List WSEntry) (e : WSEntry) (b : Book)
    (hpre : (applyUpdateEntries pre b).2 = true)
    (hf : e.hasFields = true) (hbad : e.price = .bad ∨ e.qty = .bad) :
    applyUpdateEntries (pre ++ e :: post) b = ((applyUpdateEntries pre b).1, false) := by
  rw [applyUpdateEntries_append pre (e :: post) b hpre]
  rcases hbad with hbad | hbad
  · simp [applyUpdateEntries, hf, hbad]
  · cases hp : e.price with
    | bad => simp [applyUpdateEntries, hf, hp]
    | ok p => simp [applyUpdateEntries, hf, hp, hbad]

/-- Helper: `updateBids` ignores exactly the unparsable depth levels. -/
theorem updateBids_filter (levels : List (List Parsed)) (b : Book) :
    updateBids levels b
      = updateBids (levels.filter (fun lv => (parseDepthLevel lv).isSome)) b := by
  induction levels generalizing b with
  | nil => rfl
  | cons lv rest ih =>
    cases hp : parseDepthLevel lv with
    | none =>
      have hL : updateBids (lv :: rest) b = updateBids rest b := by
        simp only [updateBids, List.foldl_cons, hp]
      have hF : (lv :: rest).filter (fun lv => (parseDepthLevel lv).isSome)
          = rest.filter (fun lv => (parseDepthLevel lv).isSome) := by
        simp [List.filter_cons, hp]
      rw [hL, hF, ih]
    | some pq =>
      obtain ⟨p, q⟩ := pq
      have hL : updateBids (lv :: rest) b
          = updateBids rest (if q = 0 then { b with bids := eraseKey p b.bids }
              else { b with bids := insertDesc p q b.bids }) := by
        simp only [updateBids, List.foldl_cons, hp]
      have hF : (lv :: rest).filter (fun lv => (parseDepthLevel lv).isSome)
          = lv :: rest.filter (fun lv => (parseDepthLevel lv).isSome) := by
        simp [List.filter_cons, hp]
      have hR : updateBids (lv :: rest.filter (fun lv => (parseDepthLevel lv).isSome)) b
          = updateBids (rest.filter (fun lv => (parseDepthLevel lv).isSome))
              (if q = 0 then { b with bids := eraseKey p b.bids }
               else { b with bids := insertDesc p q b.bids }) := by
        simp only [updateBids, List.foldl_cons, hp]
      rw [hL, hF, hR]
      exact ih _

/-- Helper: `updateAsks` ignores exactly the unparsable depth levels. -/
theorem updateAsks_filter (levels : List (List Parsed)) (b : Book) :
    updateAsks levels b
      = updateAsks (levels.filter (fun lv => (parseDepthLevel lv).isSome)) b := by
  induction levels generalizing b with
  | nil => rfl
  | cons lv rest ih =>
    cases hp : parseDepthLevel lv with
    | none =>
      have hL : updateAsks (lv :: rest) b = updateAsks rest b := by
        simp only [updateAsks, List.foldl_cons, hp]
      have hF : (lv :: rest).filter (fun lv => (parseDepthLevel lv).isSome)
          = rest.filter (fun lv => (parseDepthLevel lv).isSome) := by
        simp [List.filter_cons, hp]
      rw [hL, hF, ih]
    | some pq =>
      obtain ⟨p, q⟩ := pq
      have hL : updateAsks (lv :: rest) b
          = updateAsks rest (if q = 0 then { b with asks := eraseKey p b.asks }
              else { b with asks := insertAsc p q b.asks }) := by
        simp only [updateAsks, List.foldl_cons, hp]
      have hF : (lv :: rest).filter (fun lv => (parseDepthLevel lv).isSome)
          = lv :: rest.filter (fun lv => (parseDepthLevel lv).isSome) := by
        simp [List.filter_cons, hp]
      have hR : updateAsks (lv :: rest.filter (fun lv => (parseDepthLevel lv).isSome)) b
          = updateAsks (rest.filter (fun lv => (parseDepthLevel lv).isSome))
              (if q = 0 then { b with asks := eraseKey p b.asks }
               else { b with asks := insertAsc p q b.asks }) := by
        simp only [updateAsks, List.foldl_cons, hp]
      rw [hL, hF, hR]
      exact ih _

/-- Evaluation of the C7 message: the good first entry is applied, the bad
second entry aborts, the good third entry is lost. -/
theorem c7_apply :
    applyUpdateEntries c7Msg.updates (Book.empty "ETH-USD")
      = (⟨"ETH-USD", [(10, 5)], [], 0⟩, false) := by
  have h5 : (5 : ℚ) ≠ 0 := by norm_num
  have hstep : applyUpdateEntries [(⟨true, .ok 10, .ok 5, "bid"⟩ : WSEntry)]
      (Book.empty "ETH-USD") = (⟨"ETH-USD", [(10, 5)], [], 0⟩, true) := by
    simp [applyUpdateEntries, Book.empty, insertDesc, h5]
  have hsplit : c7Msg.updates
      = [(⟨true, .ok 10, .ok 5, "bid"⟩ : WSEntry)]
        ++ (⟨true, .ok 20, .bad, "bid"⟩ : WSEntry)
          :: [(⟨true, .ok 30, .ok 7, "bid"⟩ : WSEntry)] := rfl
  rw [hsplit, applyUpdateEntries_abort _ _ _ _ (by rw [hstep]) rfl (Or.inr rfl), hstep]

/-- Claim C7, counterexample: in the batch good(10,5) · bad · good(30,7) on
the WebSocket path, the bad entry does not merely drop itself — the good
entry after it is lost too (the exception aborts the whole loop). -/
theorem claim_C7_counterexample :
    (updateFromWebSocket c7Msg (Book.empty "ETH-USD")).2 = false
    ∧ (updateFromWebSocket c7Msg (Book.empty "ETH-USD")).1.bids = [(10, 5)]
    ∧ ((30 : ℚ), (7 : ℚ)) ∉ (updateFromWebSocket c7Msg (Book.empty "ETH-USD")).1.bids := by
  have hres : updateFromWebSocket c7Msg (Book.empty "ETH-USD")
      = (⟨"ETH-USD", [(10, 5)], [], 0⟩, false) := by
    rw [updateFromWebSocket_update_eq c7Msg (Book.empty "ETH-USD") rfl rfl rfl rfl rfl]
    rw [c7_apply]
    rfl
  rw [hres]
  refine ⟨rfl, rfl, ?_⟩
  intro hmem
  rcases List.mem_singleton.mp hmem with h
  have : (30 : ℚ) = 10 := congrArg Prod.fst h
  norm_num at this

/-- Claim C7, amended: on the `updateBids`/`updateAsks` path a malformed
depth level is dropped and every other level in the batch is still applied;
on the WebSocket path a malformed numeric field instead aborts the batch at
the bad entry (prefix applied, bad entry and everything after it dropped,
call reported failed); an unknown message shape discards the whole batch
with the book unchanged (no error counter is touched by this path). -/
theorem claim_C7 :
    (∀ (levels : List (List Parsed)) (b : Book),
      updateBids levels b
        = updateBids (levels.filter (fun lv => (parseDepthLevel lv).isSome)) b
      ∧ updateAsks levels b
        = updateAsks (levels.filter (fun lv => (parseDepthLevel lv).isSome)) b)
    ∧ (∀ (pre post : List WSEntry) (e : WSEntry) (b : Book),
        (applyUpdateEntries pre b).2 = true →
        e.hasFields = true → (e.price = .bad ∨ e.qty = .bad) →
        applyUpdateEntries (pre ++ e :: post) b = ((applyUpdateEntries pre b).1, false))
    ∧ (∀ (msg : WSMessage) (b : Book),
        msg.msgType ≠ "snapshot" → msg.msgType ≠ "update" →
        updateFromWebSocket msg b = (b, false)) := by
  refine ⟨?_, ?_, ?_⟩
  · intro levels b
    exact ⟨updateBids_filter levels b, updateAsks_filter levels b⟩
  · intro pre post e b hpre hf hbad
    exact applyUpdateEntries_abort pre post e b hpre hf hbad
  · intro msg b hs hu
    by_cases hh : msg.hasType ∧ msg.hasProductId
    · by_cases hpid : msg.productId ≠ b.symbol
      · simp [updateFromWebSocket, hh, hpid]
      · simp [updateFromWebSocket, hh, hpid, hs, hu]
    · simp [updateFromWebSocket, hh]

/-- Claim C7, witness: the abort rule applied to the concrete C7 batch. -/
theorem claim_C7_witness :
    applyUpdateEntries
        ([(⟨true, .ok 10, .ok 5, "bid"⟩ : WSEntry)]
          ++ (⟨true, .ok 20, .bad, "bid"⟩ : WSEntry)
            :: [(⟨true, .ok 30, .ok 7, "bid"⟩ : WSEntry)])
        (Book.empty "ETH-USD")
      = ((applyUpdateEntries [(⟨true, .ok 10, .ok 5, "bid"⟩ : WSEntry)]
          (Book.empty "ETH-USD")).1, false) :=
  claim_C7.2.1 [(⟨true, .ok 10, .ok 5, "bid"⟩ : WSEntry)]
    [(⟨true, .ok 30, .ok 7, "bid"⟩ : WSEntry)]
    (⟨true, .ok 20, .bad, "bid"⟩ : WSEntry)
    (Book.empty "ETH-USD")
    (by
      have h5 : (5 : ℚ) ≠ 0 := by norm_num
      simp [applyUpdateEntries, Book.empty, insertDesc, h5])
    rfl (Or.inr rfl)

/-! ## Claim C8 — lock-free SPSC ring, sequential semantics. -/

/-- Helper: offsets below the modulus are determined by the shifted mod. -/
theorem mod_add_inj {S h i j : ℕ} (hi : i < S) (hj : j < S)
    (hij : (h + i) % S = (h + j) % S) : i = j := by
  have h2 : i ≡ j [MOD S] := Nat.ModEq.add_left_cancel' h hij
  simpa [Nat.ModEq, Nat.mod_eq_of_lt hi, Nat.mod_eq_of_lt hj] using h2

/-- Helper: closed form of the occupancy count for in-range cursors. -/
theorem count_spec {T : Type} {size : ℕ} (q : LockFreeQueue T size)
    (h1 : q.head < size) (h2 : q.tail < size) :
    q.count = if q.head ≤ q.tail then q.tail - q.head else size + q.tail - q.head := by
  unfold LockFreeQueue.count
  by_cases hht : q.head ≤ q.tail
  · rw [if_pos hht]
    have he : size + q.tail - q.head = size + (q.tail - q.head) := by omega
    rw [he, Nat.add_mod_left]
    exact Nat.mod_eq_of_lt (by omega)
  · rw [if_neg hht]
    exact Nat.mod_eq_of_lt (by omega)

/-- Helper: the queue never counts a full `size` of items. -/
theorem count_lt {T : Type} {size : ℕ} (q : LockFreeQueue T size)
    (h1 : q.head < size) (h2 : q.tail < size) : q.count < size := by
  rw [count_spec q h1 h2]
  split <;> omega

/-- Helper: walking `count` slots from the head lands on the tail. -/
theorem head_add_count {T : Type} {size : ℕ} (q : LockFreeQueue T size)
    (h1 : q.head < size) (h2 : q.tail < size) :
    (q.head + q.count) % size = q.tail := by
  rw [count_spec q h1 h2]
  by_cases hht : q.head ≤ q.tail
  · rw [if_pos hht]
    have he : q.head + (q.tail - q.head) = q.tail := by omega
    rw [he]
    exact Nat.mod_eq_of_lt h2
  · rw [if_neg hht]
    have he : q.head + (size + q.tail - q.head) = size + q.tail := by omega
    rw [he, Nat.add_mod_left]
    exact Nat.mod_eq_of_lt h2

/-- Helper: the push collision test fires exactly at occupancy size − 1. -/
theorem push_full_iff {T : Type} {size : ℕ} (q : LockFreeQueue T size)
    (h1 : q.head < size) (h2 : q.tail < size) :
    (q.tail + 1) % size = q.head ↔ q.count = size - 1 := by
  rw [count_spec q h1 h2]
  by_cases hht : q.head ≤ q.tail
  · rw [if_pos hht]
    constructor
    · intro h
      by_cases ht1 : q.tail + 1 < size
      · rw [Nat.mod_eq_of_lt ht1] at h
        omega
      · have he : q.tail + 1 = size := by omega
        rw [he, Nat.mod_self] at h
        omega
    · intro h
      have hh0 : q.head = 0 := by omega
      have htS : q.tail + 1 = size := by omega
      rw [htS, Nat.mod_self, hh0]
  · rw [if_neg hht]
    constructor
    · intro h
      have ht1 : q.tail + 1 < size := by omega
      rw [Nat.mod_eq_of_lt ht1] at h
      omega
    · intro h
      have ht1 : q.tail + 1 < size := by omega
      rw [Nat.mod_eq_of_lt ht1]
      omega

/-- Helper: `getD` after `set` at the written index. -/
theorem getD_set_self {α : Type} (l : List α) (i : ℕ) (x d : α) (h : i < l.length) :
    (l.set i x).getD i d = x := by
  induction l generalizing i with
  | nil => cases h
  | cons y ys ih =>
    cases i with
    | zero => rfl
    | succ j => exact ih j (by simpa using h)

/-- Helper: `getD` after `set` at another index. -/
theorem getD_set_ne {α : Type} (l : List α) (i j : ℕ) (x d : α) (h : j ≠ i) :
    (l.set i x).getD j d = l.getD j d := by
  induction l generalizing i j with
  | nil => rfl
  | cons y ys ih =>
    cases i with
    | zero =>
      cases j with
      | zero => exact absurd rfl h
      | succ k => rfl
    | succ i' =>
      cases j with
      | zero => rfl
      | succ k => exact ih i' k (by omega)

/-- Helper: a successful push appends the item to the queue's contents. -/
theorem push_not_full {T : Type} [Inhabited T] {size : ℕ} (q : LockFreeQueue T size)
    (x : T) (hWF : q.WF) (hc : q.count < size - 1) :
    (q.push x).2 = true ∧ (q.push x).1.WF
    ∧ (q.push x).1.contents = q.contents ++ [x] := by
  obtain ⟨h1, h2, h3⟩ := hWF
  have hne : (q.tail + 1) % size ≠ q.head := by
    intro h
    rw [(push_full_iff q h1 h2).mp h] at hc
    omega
  have hpush : q.push x
      = (({ q with
            buffer := q.buffer.set q.tail x
            tail := (q.tail + 1) % size } : LockFreeQueue T size), true) := by
    unfold LockFreeQueue.push
    rw [if_pos hne]
  rw [hpush]
  have hS : 0 < size := by omega
  have hnt : (q.tail + 1) % size < size := Nat.mod_lt _ hS
  refine ⟨rfl, ⟨h1, hnt, by simpa using h3⟩, ?_⟩
  -- occupancy grows by one
  have hcount' : (({ q with
      buffer := q.buffer.set q.tail x
      tail := (q.tail + 1) % size } : LockFreeQueue T size)).count = q.count + 1 := by
    have hA : (({ q with
        buffer := q.buffer.set q.tail x
        tail := (q.tail + 1) % size } : LockFreeQueue T size)).count
        = if q.head ≤ (q.tail + 1) % size then (q.tail + 1) % size - q.head
          else size + ((q.tail + 1) % size) - q.head :=
      count_spec _ h1 hnt
    rw [hA, count_spec q h1 h2]
    have hcc : (if q.head ≤ q.tail then q.tail - q.head else size + q.tail - q.head)
        < size - 1 := by
      rw [← count_spec q h1 h2]
      exact hc
    by_cases ht1 : q.tail + 1 < size
    · rw [Nat.mod_eq_of_lt ht1]
      rcases Nat.lt_or_ge q.tail q.head with hlt | hge
      · have hh : q.head ≠ q.tail + 1 := by
          intro h
          apply hne
          rw [Nat.mod_eq_of_lt ht1]
          omega
        rw [if_neg (show ¬ q.head ≤ q.tail + 1 by omega),
          if_neg (show ¬ q.head ≤ q.tail by omega)]
        omega
      · rw [if_pos (show q.head ≤ q.tail + 1 by omega),
          if_pos (show q.head ≤ q.tail by omega)]
        omega
    · have htS : q.tail + 1 = size := by omega
      have hmod : (q.tail + 1) % size = 0 := by rw [htS, Nat.mod_self]
      rw [hmod]
      have hh0 : 0 < q.head := by
        rcases Nat.eq_zero_or_pos q.head with h0 | hpos
        · exact absurd (by rw [hmod, h0]) hne
        · exact hpos
      rw [if_neg (show ¬ q.head ≤ 0 by omega),
        if_pos (show q.head ≤ q.tail by omega)]
      rw [if_pos (show q.head ≤ q.tail by omega)] at hcc
      omega
  -- contents: the first `count` slots are untouched, slot `tail` receives x
  unfold LockFreeQueue.contents
  rw [hcount']
  rw [List.range_succ, List.map_append]
  congr 1
  · apply List.map_congr_left
    intro i hi
    have hi' : i < q.count := List.mem_range.mp hi
    have hcnt : q.count < size := count_lt q h1 h2
    have hne2 : (q.head + i) % size ≠ q.tail := by
      intro h
      rw [← head_add_count q h1 h2] at h
      exact absurd (mod_add_inj (by omega) hcnt h) (by omega)
    exact getD_set_ne _ _ _ _ _ hne2
  · have ht : (q.head + q.count) % size = q.tail := head_add_count q h1 h2
    simp only [List.map_cons, List.map_nil]
    rw [ht, getD_set_self _ _ _ _ (by omega)]

/-- Helper: a push against a queue holding size − 1 items is refused and
leaves the queue unchanged. -/
theorem push_full {T : Type} {size : ℕ} (q : LockFreeQueue T size) (x : T)
    (hWF : q.WF) (hc : q.count = size - 1) : q.push x = (q, false) := by
  obtain ⟨h1, h2, h3⟩ := hWF
  have heq : (q.tail + 1) % size = q.head := (push_full_iff q h1 h2).mpr hc
  unfold LockFreeQueue.push
  rw [if_neg (not_not_intro heq)]

/-- Helper: the contents list has exactly `count` entries. -/
theorem contents_length {T : Type} [Inhabited T] {size : ℕ} (q : LockFreeQueue T size) :
    q.contents.length = q.count := by
  simp [LockFreeQueue.contents]

/-- Helper: a pop from a non-empty queue returns the oldest item and keeps
the rest in order. -/
theorem pop_cons {T : Type} [Inhabited T] {size : ℕ} (q : LockFreeQueue T size)
    (hWF : q.WF) (hne : q.head ≠ q.tail) :
    (q.pop).2 = some (q.buffer.getD q.head default)
    ∧ (q.pop).1.WF
    ∧ q.contents = q.buffer.getD q.head default :: (q.pop).1.contents := by
  obtain ⟨h1, h2, h3⟩ := hWF
  have hS : 0 < size := by omega
  have hh1 : (q.head + 1) % size < size := Nat.mod_lt _ hS
  have hpop : q.pop
      = (({ q with head := (q.head + 1) % size } : LockFreeQueue T size),
         some (q.buffer.getD q.head default)) := by
    unfold LockFreeQueue.pop
    rw [if_neg hne]
  have hcq : q.count ≠ 0 := by
    rw [count_spec q h1 h2]
    split <;> omega
  have hcount' : (({ q with head := (q.head + 1) % size } : LockFreeQueue T size)).count
      = q.count - 1 := by
    have hA : (({ q with head := (q.head + 1) % size } : LockFreeQueue T size)).count
        = if (q.head + 1) % size ≤ q.tail then q.tail - (q.head + 1) % size
          else size + q.tail - (q.head + 1) % size :=
      count_spec _ hh1 h2
    rw [hA, count_spec q h1 h2]
    by_cases hh1' : q.head + 1 < size
    · rw [Nat.mod_eq_of_lt hh1']
      rcases Nat.lt_or_ge q.tail q.head with hlt | hge
      · rw [if_neg (by omega), if_neg (by omega)]
        omega
      · rw [if_pos (by omega), if_pos (by omega)]
        omega
    · have hhS : q.head + 1 = size := by omega
      rw [hhS, Nat.mod_self]
      rw [if_pos (Nat.zero_le _), if_neg (by omega)]
      omega
  refine ⟨by rw [hpop], by rw [hpop]; exact ⟨hh1, h2, by simpa using h3⟩, ?_⟩
  rw [hpop]
  show q.contents
      = q.buffer.getD q.head default
        :: (({ q with head := (q.head + 1) % size } : LockFreeQueue T size)).contents
  unfold LockFreeQueue.contents
  rw [hcount']
  obtain ⟨c, hcc⟩ : ∃ c, q.count = c + 1 := ⟨q.count - 1, by omega⟩
  rw [hcc]
  show (List.range (c + 1)).map
      (fun i => q.buffer.getD ((q.head + i) % size) default)
      = q.buffer.getD q.head default
        :: (List.range (c + 1 - 1)).map
          (fun i => q.buffer.getD (((q.head + 1) % size + i) % size) default)
  have hsub : c + 1 - 1 = c := rfl
  rw [hsub, List.range_succ_eq_map, List.map_cons, List.map_map]
  congr 1
  · rw [Nat.add_zero, Nat.mod_eq_of_lt h1]
  · apply List.map_congr_left
    intro i _
    simp only [Function.comp_apply]
    rw [Nat.mod_add_mod]
    have he : q.head + i.succ = q.head + 1 + i := by omega
    rw [he]

/-- Helper: the contents list is empty exactly when head = tail. -/
theorem contents_nil_iff {T : Type} [Inhabited T] {size : ℕ} (q : LockFreeQueue T size)
    (h1 : q.head < size) (h2 : q.tail < size) :
    q.contents = [] ↔ q.head = q.tail := by
  constructor
  · intro h
    have hlen : q.count = 0 := by
      rw [← contents_length q, h]
      rfl
    rw [count_spec q h1 h2] at hlen
    by_cases hht : q.head ≤ q.tail
    · rw [if_pos hht] at hlen
      omega
    · rw [if_neg hht] at hlen
      omega
  · intro h
    have : q.count = 0 := by
      rw [count_spec q h1 h2, if_pos (le_of_eq h)]
      omega
    simp [LockFreeQueue.contents, this]

/-- Helper: while fewer than size − 1 pushes have happened, they all
succeed and the cursors advance linearly. -/
theorem pushSeq_spec (S : ℕ) (hS : 0 < S) (n : ℕ) (hn : n ≤ S - 1) :
    (pushSeq S n).1.head = 0 ∧ (pushSeq S n).1.tail = n ∧ (pushSeq S n).2 = true := by
  induction n with
  | zero => exact ⟨rfl, rfl, rfl⟩
  | succ m ih =>
    obtain ⟨ih1, ih2, ih3⟩ := ih (by omega)
    have hm1 : m + 1 < S := by omega
    have hcond : ((pushSeq S m).1.tail + 1) % S ≠ (pushSeq S m).1.head := by
      rw [ih1, ih2, Nat.mod_eq_of_lt hm1]
      omega
    have hpush : ((pushSeq S m).1.push m)
        = (({ (pushSeq S m).1 with
            buffer := (pushSeq S m).1.buffer.set (pushSeq S m).1.tail m
            tail := ((pushSeq S m).1.tail + 1) % S } : LockFreeQueue ℕ S), true) := by
      unfold LockFreeQueue.push
      rw [if_pos hcond]
    refine ⟨?_, ?_, ?_⟩
    · show ((pushSeq S m).1.push m).1.head = 0
      rw [hpush]
      exact ih1
    · show ((pushSeq S m).1.push m).1.tail = m + 1
      rw [hpush]
      show ((pushSeq S m).1.tail + 1) % S = m + 1
      rw [ih2, Nat.mod_eq_of_lt hm1]
    · show ((pushSeq S m).2 && ((pushSeq S m).1.push m).2) = true
      rw [ih3, hpush]
      rfl

/-- Claim C8, counterexample: in the `LockFreeQueue` of declared capacity
1024, after 1023 successful pushes the queue holds only 1023 items — fewer
than the claimed capacity — yet the next push already returns false: one
slot of the ring is sacrificed, so "full" happens at 1023, not 1024. -/
theorem claim_C8_counterexample :
    (pushSeq 1024 1023).2 = true
    ∧ (pushSeq 1024 1023).1.contents.length = 1023
    ∧ (1023 : ℕ) < 1024
    ∧ ((pushSeq 1024 1023).1.push 0).2 = false := by
  obtain ⟨h1, h2, h3⟩ := pushSeq_spec 1024 (by norm_num) 1023 (by norm_num)
  refine ⟨h3, ?_, by norm_num, ?_⟩
  · rw [contents_length]
    unfold LockFreeQueue.count
    rw [h1, h2]
  · have hcol : ((pushSeq 1024 1023).1.tail + 1) % 1024 = (pushSeq 1024 1023).1.head := by
      rw [h1, h2]
    unfold LockFreeQueue.push
    rw [if_neg (not_not_intro hcol)]

/-- Claim C8, amended: sequentially, the ring of declared capacity `size`
(1024 for market data, 2048 for order events) holds at most size − 1 items:
push returns false exactly when size − 1 items are enqueued and then leaves
the queue unchanged; pop returns none exactly when the queue is empty; a
successful push appends to the logical contents and a pop removes its
head — so the queue never re-orders, never duplicates, and never loses an
already-enqueued item. -/
theorem claim_C8 :
    (∀ (T : Type) [Inhabited T] (size : ℕ) (q : LockFreeQueue T size) (x : T), q.WF →
      (q.contents.length = size - 1 → q.push x = (q, false))
      ∧ (q.contents.length < size - 1 →
          (q.push x).2 = true ∧ (q.push x).1.WF
          ∧ (q.push x).1.contents = q.contents ++ [x]))
    ∧ (∀ (T : Type) [Inhabited T] (size : ℕ) (q : LockFreeQueue T size), q.WF →
        (q.contents = [] → q.pop = (q, none))
        ∧ (∀ (y : T) (ys : List T), q.contents = y :: ys →
            (q.pop).2 = some y ∧ (q.pop).1.WF ∧ (q.pop).1.contents = ys)) := by
  constructor
  · intro T _ size q x hWF
    constructor
    · intro hlen
      rw [contents_length] at hlen
      exact push_full q x hWF hlen
    · intro hlen
      rw [contents_length] at hlen
      exact push_not_full q x hWF hlen
  · intro T _ size q hWF
    constructor
    · intro hnil
      have hht : q.head = q.tail := (contents_nil_iff q hWF.1 hWF.2.1).mp hnil
      unfold LockFreeQueue.pop
      rw [if_pos hht]
    · intro y ys hcons
      have hne : q.head ≠ q.tail := by
        intro h
        rw [(contents_nil_iff q hWF.1 hWF.2.1).mpr h] at hcons
        cases hcons
      obtain ⟨hval, hwf', hrest⟩ := pop_cons q hWF hne
      rw [hcons] at hrest
      injection hrest with hy hys
      refine ⟨?_, hwf', ?_⟩
      · rw [hval, hy]
      · rw [hys]

/-- Claim C8, witness: the queue ⟨head 0, tail 2, buffer [5, 6, 0, 0]⟩ of
size 4 holds [5, 6]; a push appends 9 and a pop returns 5 leaving [6]. -/
theorem claim_C8_witness :
    (((⟨0, 2, [5, 6, 0, 0]⟩ : LockFreeQueue ℕ 4).push 9).2 = true
      ∧ ((⟨0, 2, [5, 6, 0, 0]⟩ : LockFreeQueue ℕ 4).push 9).1.WF
      ∧ ((⟨0, 2, [5, 6, 0, 0]⟩ : LockFreeQueue ℕ 4).push 9).1.contents
          = (⟨0, 2, [5, 6, 0, 0]⟩ : LockFreeQueue ℕ 4).contents ++ [9])
    ∧ ((⟨0, 2, [5, 6, 0, 0]⟩ : LockFreeQueue ℕ 4).pop.2 = some 5
      ∧ (⟨0, 2, [5, 6, 0, 0]⟩ : LockFreeQueue ℕ 4).pop.1.WF
      ∧ (⟨0, 2, [5, 6, 0, 0]⟩ : LockFreeQueue ℕ 4).pop.1.contents = [6]) :=
  ⟨(claim_C8.1 ℕ 4 (⟨0, 2, [5, 6, 0, 0]⟩ : LockFreeQueue ℕ 4) 9
      ⟨by norm_num, by norm_num, rfl⟩).2 (by decide),
   (claim_C8.2 ℕ 4 (⟨0, 2, [5, 6, 0, 0]⟩ : LockFreeQueue ℕ 4)
      ⟨by norm_num, by norm_num, rfl⟩).2 5 [6] (by decide)⟩

end CryptoBot
